import Mathlib

/-!
# Verification of the Innovations Codex module (`src/main.js`)

Shallow embedding of the module's data model and privileged operations.

* Documents (Foundry `Item`, `Actor`, `Folder`) are records over `Nat`
  identifiers; the world store is a `GameState` holding the ordered
  collections `game.folders`, `game.items` (world items have `owner = none`,
  actor-embedded items have `owner = some actorUuid`) and `game.actors`.
* Fresh document ids come from the `nextId` counter (`foundry.utils.randomID`
  in the source always yields an unused id).
* Flags under the module scope (`flags["innovations-codex"]`) are typed
  fields on `Item`.
* JavaScript values reaching `setSlotLevelForBlueprint`'s `level` argument
  are modelled by `JSInput`: `null`, strings, and finite numbers `|x| < 1e21`
  represented by their truncation toward zero plus a flag recording whether a
  fractional part is present (`Number.parseInt` of such a number equals its
  truncation).
-/

set_option autoImplicit false

namespace InnovationsCodex


/-- `const CODEX_NAME = "Innovations Codex"`. -/
def CODEX_NAME : String := "Innovations Codex"

/-- `const SPELL_LEVEL_FOLDERS = ["Uncategorized", "1st", ..., "9th"]`. -/
def SPELL_LEVEL_FOLDERS : List String :=
  ["Uncategorized", "1st", "2nd", "3rd", "4th", "5th", "6th", "7th", "8th", "9th"]

/-- A JavaScript value that may be passed as a category/level input or stored
in a flag: `null`, a string, or a finite number `|x| < 1e21` given by its
truncation toward zero together with whether it has a fractional part. -/
inductive JSInput where
  | jsNull : JSInput
  | jsStr : String → JSInput
  | jsNum : Int → Bool → JSInput
deriving DecidableEq, Repr

/-- White space skipped by `Number.parseInt` before the sign/digits. -/
def isJsSpace (c : Char) : Bool :=
  c == ' ' || c == '\t' || c == '\n' || c == '\r' || c == '\x0b' || c == '\x0c'

/-- Numeric value of a digit string. -/
def digitsVal (cs : List Char) : Nat :=
  cs.foldl (fun a c => a * 10 + (c.toNat - 48)) 0

/-- Longest leading run of decimal digits; `none` when there is none
(`parseInt` returns `NaN` in that case). -/
def parseDigits (cs : List Char) : Option Nat :=
  let ds := cs.takeWhile Char.isDigit
  if ds.isEmpty then none else some (digitsVal ds)

/-- `Number.parseInt(str, 10)`: skip white space, optional sign, then the
longest digit prefix; `none` models `NaN`. -/
def parseIntString (str : String) : Option Int :=
  match str.toList.dropWhile isJsSpace with
  | '-' :: rest => (parseDigits rest).map (fun n => -(n : Int))
  | '+' :: rest => (parseDigits rest).map (fun n => (n : Int))
  | rest => (parseDigits rest).map (fun n => (n : Int))

/-- `Number.parseInt(v, 10)` on a `JSInput`.  `parseInt(null)` is `NaN`;
a finite number `|x| < 1e21` is first converted to its decimal string, whose
integer prefix is the truncation of `x` toward zero. -/
def parseIntJS : JSInput → Option Int
  | JSInput.jsNull => none
  | JSInput.jsStr s => parseIntString s
  | JSInput.jsNum n _ => some n

/-- `parseInt` applied to an object-property read that may be `undefined`
(`uuidMap[key]` in `getSlotLevel`): `parseInt(undefined)` is `NaN`. -/
def parseIntOptJS : Option JSInput → Option Int
  | none => none
  | some v => parseIntJS v

/-- `Number.isFinite(v) && v >= 1 && v <= 9` for a `parseInt` result. -/
def finiteInRange : Option Int → Bool
  | some v => 1 ≤ v && v ≤ 9
  | none => false

/-- The strict-equality test
`level === null || level === "" || level === "0" || level === 0`
in `setSlotLevelForBlueprint`. -/
def isZeroLevelInput (level : JSInput) : Bool :=
  level == JSInput.jsNull || level == JSInput.jsStr "" ||
    level == JSInput.jsStr "0" || level == JSInput.jsNum 0 false

/-- The input normalisation/validation of `setSlotLevelForBlueprint`:
`some none` = normalised to uncategorized, `some (some n)` = accepted level
`n`, `none` = rejected (the function returns without any state change). -/
def normalizeLevel (level : JSInput) : Option (Option Int) :=
  if isZeroLevelInput level then some none
  else
    match parseIntJS level with
    | none => none
    | some n => if 1 ≤ n && n ≤ 9 then some (some n) else none

/-- Flag value stored by `setItemFlag(blueprintUuid, "spellLevel", normalizedLevel)`. -/
def levelFlagVal : Option Int → JSInput
  | none => JSInput.jsNull
  | some n => JSInput.jsNum n false

/-! ## JavaScript object-as-map operations (insertion ordered) -/

/-- `m[k]` (`none` = `undefined`). -/
def getKey {α β : Type} [BEq α] (m : List (α × β)) (k : α) : Option β :=
  (m.find? (fun e => e.1 == k)).map (fun e => e.2)

/-- `m[k] = v`: overwrite in place, or append a new key. -/
def setKey {α β : Type} [BEq α] (m : List (α × β)) (k : α) (v : β) : List (α × β) :=
  if m.any (fun e => e.1 == k) then m.map (fun e => if e.1 == k then (k, v) else e)
  else m ++ [(k, v)]

/-- `delete m[k]`. -/
def delKey {α β : Type} [BEq α] (m : List (α × β)) (k : α) : List (α × β) :=
  m.filter (fun e => !(e.1 == k))

/-! ## Documents -/

/-- A Foundry `Folder` document (only the fields the module reads). -/
structure Folder where
  id : Nat
  name : String
  ftype : String
  parent : Option Nat
deriving DecidableEq, Repr

/-- A Foundry `Item` document; module-scope flags are inlined as typed
fields.  `owner = none` means a world item (member of `game.items`),
`owner = some a` an item embedded in the actor with uuid `a`. -/
structure Item where
  id : Nat
  uuid : Nat
  name : String
  img : String
  itype : String
  folder : Option Nat
  owner : Option Nat
  container : Option Nat
  containerId : Option Nat
  isCodex : Bool
  isCreateFeature : Bool
  isInnovation : Bool
  isTemporary : Bool
  spellLevel : Option JSInput
  originUuid : Option Nat
  mirrorOf : Option Nat
  createdBy : Option Nat
  slotLevelsByUuid : List (Nat × JSInput)
  slotLevelsByName : List (String × JSInput)
deriving DecidableEq, Repr

/-- A default/blank item, convenient for building concrete stores. -/
def blankItem : Item :=
  { id := 0, uuid := 0, name := "", img := "", itype := "loot",
    folder := none, owner := none, container := none, containerId := none,
    isCodex := false, isCreateFeature := false, isInnovation := false,
    isTemporary := false, spellLevel := none, originUuid := none,
    mirrorOf := none, createdBy := none,
    slotLevelsByUuid := [], slotLevelsByName := [] }

/-- A Foundry `Actor` document; `spells` holds the
`system.spells.spell<l>.value` resource pools, keyed by level. -/
structure Actor where
  uuid : Nat
  name : String
  spells : List (Int × Int)
deriving DecidableEq, Repr

/-- The world store: `game.folders`, all items (world and embedded),
`game.actors`, plus the fresh-id counter. -/
structure GameState where
  folders : List Folder
  items : List Item
  actors : List Actor
  nextId : Nat
deriving DecidableEq, Repr

/-- `foundry.utils.getProperty(actor, "system.spells.spell<lvl>.value")`. -/
def getSpellSlots (a : Actor) (lvl : Int) : Option Int :=
  getKey a.spells lvl

/-- `actor.update({ "system.spells.spell<lvl>.value": v })`. -/
def setSpellSlots (a : Actor) (lvl : Int) (v : Int) : Actor :=
  { a with spells := setKey a.spells lvl v }

/-- Update the actor with the given uuid. -/
def updateActor (s : GameState) (u : Nat) (f : Actor → Actor) : GameState :=
  { s with actors := s.actors.map (fun a => if a.uuid == u then f a else a) }

/-- Update every item with the given uuid (Foundry uuids are unique). -/
def updateItemByUuid (s : GameState) (u : Nat) (f : Item → Item) : GameState :=
  { s with items := s.items.map (fun i => if i.uuid == u then f i else i) }

/-- `doc.update(...)` on a world item: world items are keyed by `id`. -/
def updateWorldItemById (s : GameState) (iid : Nat) (f : Item → Item) : GameState :=
  { s with items := s.items.map (fun i => if i.owner == none && i.id == iid then f i else i) }

/-! ## Helpers from SECTION 4 of `src/main.js` -/

/-- `isCodexItem(item)`: module flag, or container type with the codex name. -/
def isCodexItem (i : Item) : Bool :=
  i.isCodex || (i.itype == "container" && i.name == CODEX_NAME)

/-- The root-folder predicate used by `getSpellLevelFolder` and
`ensureFolderHierarchy`:
`f.name === CODEX_NAME && f.type === "Item" && !(f.folder?.id ?? f.folder)`. -/
def isRootCand (f : Folder) : Bool :=
  f.name == CODEX_NAME && f.ftype == "Item" && f.parent == none

/-- Subfolder predicate: name, `Item` type, and parent equal to the root. -/
def isSubCand (name : String) (rootId : Nat) (f : Folder) : Bool :=
  f.name == name && f.ftype == "Item" && f.parent == some rootId

/-- Stray predicate: a fixed category name, `Item` type, no parent. -/
def isStrayCand (name : String) (f : Folder) : Bool :=
  f.name == name && f.ftype == "Item" && f.parent == none

/-- `getSpellLevelFolder(level)`: find the root folder, map the level to a
subfolder name (`1..9` index `SPELL_LEVEL_FOLDERS`, anything else —
including `null` — gives `"Uncategorized"`), then find that subfolder. -/
def getSpellLevelFolder (s : GameState) (level : Option Int) : Option Folder :=
  match s.folders.find? isRootCand with
  | none => none
  | some root =>
    let folderName :=
      match level with
      | some l => if 1 ≤ l && l ≤ 9 then SPELL_LEVEL_FOLDERS.getD l.toNat "Uncategorized"
                  else "Uncategorized"
      | none => "Uncategorized"
    s.folders.find? (isSubCand folderName root.id)

/-! ## GM handlers (SECTION 1 of `src/main.js`) -/

/-- `_gmRecall(itemUuid, codexUuid)`: resolve the item (`false` if absent),
check the `originUuid` back-reference against `codexUuid` (`false` on
mismatch), then delete the item from its parent actor, or outright if it is
a world item. -/
def gmRecall (s : GameState) (itemUuid codexUuid : Nat) : GameState × Bool :=
  match s.items.find? (fun i => i.uuid == itemUuid) with
  | none => (s, false)
  | some item =>
    if item.originUuid == some codexUuid then
      if item.owner.isSome then
        ({ s with items := s.items.filter (fun i => !(i.owner == item.owner && i.id == item.id)) }, true)
      else
        ({ s with items := s.items.filter (fun i => !(i.owner == none && i.id == item.id)) }, true)
    else (s, false)

/-- `_gmFabricate(ownerActorUuid, targetActorUuid, blueprintUuid, codexUuid,
slotLevel)`: resolve the three documents (`false` if any is missing or of
the wrong kind); read the owner's slot pool (`false` unless it is a finite
number `> 0`); decrement it; then attach a `Temporary` copy of the
blueprint — container fields stripped, `originUuid`/`isTemporary` flags
set — to the target actor. -/
def gmFabricate (s : GameState) (ownerUuid targetUuid blueprintUuid codexUuid : Nat)
    (slotLevel : Int) : GameState × Bool :=
  match s.actors.find? (fun a => a.uuid == ownerUuid),
        s.actors.find? (fun a => a.uuid == targetUuid),
        s.items.find? (fun i => i.uuid == blueprintUuid) with
  | some owner, some _, some bp =>
    match getSpellSlots owner slotLevel with
    | none => (s, false)
    | some cur =>
      if cur ≤ 0 then (s, false)
      else
        let s1 := updateActor s ownerUuid (fun a => setSpellSlots a slotLevel (cur - 1))
        let newItem : Item :=
          { bp with id := s1.nextId, uuid := s1.nextId, owner := some targetUuid,
                    container := none, containerId := none,
                    name := "Temporary " ++ bp.name,
                    originUuid := some codexUuid, isTemporary := true }
        ({ s1 with items := s1.items ++ [newItem], nextId := s1.nextId + 1 }, true)
  | _, _, _ => (s, false)

/-- `_gmAddCodexToActor(actorUuid)`: `null` if the actor is missing; the
existing codex item's uuid if the actor already has one; otherwise clone the
world codex template (identity, folder and container fields stripped) onto
the actor, returning the new uuid, or `null` when no template exists. -/
def gmAddCodexToActor (s : GameState) (actorUuid : Nat) : GameState × Option Nat :=
  match s.actors.find? (fun a => a.uuid == actorUuid) with
  | none => (s, none)
  | some _ =>
    match s.items.find? (fun i => i.owner == some actorUuid && isCodexItem i) with
    | some existing => (s, some existing.uuid)
    | none =>
      match s.items.find? (fun i => i.owner == none && i.isCodex) with
      | none => (s, none)
      | some worldCodex =>
        let created : Item :=
          { worldCodex with id := s.nextId, uuid := s.nextId, folder := none,
                            container := none, containerId := none,
                            owner := some actorUuid }
        ({ s with items := s.items ++ [created], nextId := s.nextId + 1 }, some created.uuid)

/-- The world-item predicate `_gmMirror` searches with:
`game.items.find(i => i.getFlag(MODULE_ID, "mirrorOf") === actorItemUuid)`. -/
def isMirrorOf (src : Nat) (i : Item) : Bool :=
  i.owner == none && i.mirrorOf == some src

/-- `_gmMirror(itemData, actorItemUuid, level)`.  If the target folder is
missing it only logs a warning (the `Bool` result records that) and mutates
nothing.  Otherwise: update the existing mirror's folder (when different)
and then its name/image, or create a fresh world mirror tagged with
`mirrorOf` and `spellLevel`. -/
def gmMirror (s : GameState) (payload : Item) (actorItemUuid : Nat)
    (level : Option Int) : GameState × Bool :=
  match getSpellLevelFolder s level with
  | none => (s, true)
  | some folder =>
    match s.items.find? (isMirrorOf actorItemUuid) with
    | some mirrorItem =>
      let s1 := if mirrorItem.folder == some folder.id then s
                else updateWorldItemById s mirrorItem.id (fun i => { i with folder := some folder.id })
      let s2 := updateWorldItemById s1 mirrorItem.id
                  (fun i => { i with name := payload.name, img := payload.img })
      (s2, false)
    | none =>
      let created : Item :=
        { payload with id := s.nextId, uuid := s.nextId, folder := some folder.id,
                       owner := none, container := none, containerId := none,
                       mirrorOf := some actorItemUuid,
                       spellLevel := some (levelFlagVal level) }
      ({ s with items := s.items ++ [created], nextId := s.nextId + 1 }, false)

/-! ## Category lookup and assignment (SECTION 4 of `src/main.js`) -/

/-- `getSlotLevel(codex, blueprint)`: identifier-keyed map, then name-keyed
map, then the blueprint's own `spellLevel` flag, each accepted only when it
parses to a finite integer in `1..9`. -/
def getSlotLevel (codex blueprint : Item) : Option Int :=
  let fromUuidVal := parseIntOptJS (getKey codex.slotLevelsByUuid blueprint.uuid)
  if finiteInRange fromUuidVal then fromUuidVal
  else
    let fromName := parseIntOptJS (getKey codex.slotLevelsByName blueprint.name)
    if finiteInRange fromName then fromName
    else
      match blueprint.spellLevel with
      | some itemLevel =>
        if itemLevel == JSInput.jsNull then none
        else
          let parsed := parseIntJS itemLevel
          if finiteInRange parsed then parsed else none
      | none => none

/-- `setSlotLevelForBlueprint(codex, blueprint, level)`: validate the level,
rewrite both assignment maps on the codex (the name map only when the
blueprint's name is truthy), store the blueprint's own `spellLevel` flag,
and mirror the blueprint to the world folder.  The GM whisper at the end
touches no modelled state. -/
def setSlotLevelForBlueprint (s : GameState) (codexUuid blueprintUuid : Nat)
    (level : JSInput) : GameState :=
  match s.items.find? (fun i => i.uuid == codexUuid),
        s.items.find? (fun i => i.uuid == blueprintUuid) with
  | some codex, some blueprint =>
    match normalizeLevel level with
    | none => s
    | some normalizedLevel =>
      let bpUuid := blueprint.uuid
      let bpName := blueprint.name
      let uuidMap := codex.slotLevelsByUuid
      let nameMap := codex.slotLevelsByName
      let uuidMap' :=
        match normalizedLevel with
        | none => delKey uuidMap bpUuid
        | some lvl => setKey uuidMap bpUuid (JSInput.jsNum lvl false)
      let nameMap' :=
        if bpName == "" then nameMap
        else
          match normalizedLevel with
          | none => delKey nameMap bpName
          | some lvl => setKey nameMap bpName (JSInput.jsNum lvl false)
      let s1 := updateItemByUuid s codexUuid (fun i => { i with slotLevelsByUuid := uuidMap' })
      let s2 := updateItemByUuid s1 codexUuid (fun i => { i with slotLevelsByName := nameMap' })
      let s3 := updateItemByUuid s2 bpUuid (fun i => { i with spellLevel := some (levelFlagVal normalizedLevel) })
      match s3.items.find? (fun i => i.uuid == bpUuid) with
      | some bp => (gmMirror s3 bp bpUuid normalizedLevel).1
      | none => s3
  | _, _ => s

/-! ## Folder repair (SECTION 3 of `src/main.js`) -/

/-- `isFolderEmpty(f)`: no world item sits in the folder and no folder has
it as parent. -/
def isFolderEmpty (fs : List Folder) (its : List Item) (f : Folder) : Bool :=
  !(its.any (fun it => it.owner == none && it.folder == some f.id)) &&
    !(fs.any (fun c => c.parent == some f.id))

/-- One guarded deletion sweep: for each candidate in order, delete it when
it is empty in the current (live) state. -/
def deleteEmptyIn : GameState → List Folder → GameState
  | s, [] => s
  | s, d :: l =>
    let s1 := if isFolderEmpty s.folders s.items d then
                { s with folders := s.folders.filter (fun g => !(g.id == d.id)) }
              else s
    deleteEmptyIn s1 l

/-- The per-name body of the subfolder loop in `ensureFolderHierarchy`:
collect `(name, "Item", parent = root)` matches, delete empty duplicates
beyond the first, create the subfolder when there was no match at all. -/
def subStep (root : Folder) (s : GameState) (name : String) : GameState :=
  let cands := s.folders.filter (isSubCand name root.id)
  let s1 := if 1 < cands.length then deleteEmptyIn s (cands.drop 1) else s
  if cands.length == 0 then
    { s1 with folders := s1.folders ++ [{ id := s1.nextId, name := name, ftype := "Item", parent := some root.id }],
              nextId := s1.nextId + 1 }
  else s1

/-- The subfolder loop over the ten category names. -/
def subfolderPhase (root : Folder) : GameState → List String → GameState
  | s, [] => s
  | s, n :: ns => subfolderPhase root (subStep root s n) ns

/-- The per-name body of the stray sweep: delete every empty root-level
folder carrying a category name. -/
def strayStep (s : GameState) (name : String) : GameState :=
  deleteEmptyIn s (s.folders.filter (isStrayCand name))

/-- The stray sweep over the ten category names. -/
def strayPhase : GameState → List String → GameState
  | s, [] => s
  | s, n :: ns => strayPhase (strayStep s n) ns

/-- `ensureFolderHierarchy()`: locate or create the root folder (deleting
empty duplicate roots beyond the first), then repair the ten category
subfolders, then sweep empty strays; returns the repaired state and the
root folder. -/
def ensureFolderHierarchy (s : GameState) : GameState × Folder :=
  match s.folders.filter isRootCand with
  | [] =>
    let root : Folder := { id := s.nextId, name := CODEX_NAME, ftype := "Item", parent := none }
    let s1 : GameState := { s with folders := s.folders ++ [root], nextId := s.nextId + 1 }
    let s2 := subfolderPhase root s1 SPELL_LEVEL_FOLDERS
    (strayPhase s2 SPELL_LEVEL_FOLDERS, root)
  | r :: rest =>
    let s1 := deleteEmptyIn s rest
    let s2 := subfolderPhase r s1 SPELL_LEVEL_FOLDERS
    (strayPhase s2 SPELL_LEVEL_FOLDERS, r)

/-! ## Claim C1: recall authorization -/

/-- Store used by the C1 witness: one embedded item with back-reference `7`. -/
def recallTestItem : Item :=
  { blankItem with id := 3, uuid := 10, owner := some 5, originUuid := some 7 }

/-- Store used by the C1 witness. -/
def recallTestState : GameState :=
  { folders := [], items := [recallTestItem], actors := [], nextId := 100 }

/-- Owner used by the C2 witness: zero third-level slots. -/
def fabricateTestOwner : Actor := { uuid := 1, name := "Owner", spells := [(3, 0)] }

/-- Store used by the C2 witness. -/
def fabricateTestState : GameState :=
  { folders := [],
    items := [{ blankItem with id := 4, uuid := 20, name := "Widget", owner := some 1 }],
    actors := [fabricateTestOwner, { uuid := 2, name := "Target", spells := [] }],
    nextId := 50 }

/-- Store used by the C8 witness: no folders at all. -/
def mirrorMissState : GameState :=
  { folders := [], items := [blankItem], actors := [], nextId := 0 }

/-- Actor used by the C4 witness. -/
def ecActor : Actor := { uuid := 1, name := "A", spells := [] }

/-- World codex template used by the C4 witness. -/
def ecTemplate : Item :=
  { blankItem with id := 5, uuid := 5, itype := "container", isCodex := true,
                   name := CODEX_NAME }

/-- Store used by the C4 witness. -/
def ecState : GameState :=
  { folders := [], items := [ecTemplate], actors := [ecActor], nextId := 7 }

/-- Codex used by the C9 witness: both assignment maps empty. -/
def fallbackCodex : Item := { blankItem with id := 1, uuid := 1 }

/-- Blueprint used by the C9 witness: own flag stores level 4. -/
def fallbackBp : Item :=
  { blankItem with id := 2, uuid := 2, name := "Gizmo",
                   spellLevel := some (JSInput.jsNum 4 false) }

/-- Folders used by the C3 witness. -/
def mwRoot : Folder := { id := 0, name := CODEX_NAME, ftype := "Item", parent := none }

/-- "2nd"-level folder used by the C3 witness. -/
def mwF2 : Folder := { id := 2, name := "2nd", ftype := "Item", parent := some 0 }

/-- "5th"-level folder used by the C3 witness. -/
def mwF5 : Folder := { id := 5, name := "5th", ftype := "Item", parent := some 0 }

/-- Store used by the C3 witness: full folder tree, no items yet. -/
def mwState : GameState :=
  { folders := [mwRoot, mwF2, mwF5], items := [], actors := [], nextId := 10 }

/-- Payload used by the C3 witness. -/
def mwPayload : Item := { blankItem with id := 3, uuid := 3, name := "Spark" }

/-- Mirror item used by the C10 witness: stored flag says level 2, currently
filed under the level-2 folder. -/
def mfMirror : Item :=
  { blankItem with id := 7, uuid := 7, name := "Old", img := "old.png",
                   folder := some 2, mirrorOf := some 42,
                   spellLevel := some (JSInput.jsNum 2 false) }

/-- Store used by the C10 witness. -/
def mfState : GameState :=
  { folders := [mwRoot, mwF2, mwF5], items := [mfMirror], actors := [], nextId := 20 }

/-- Payload used by the C10 witness. -/
def mfPayload : Item := { blankItem with id := 9, uuid := 9, name := "New", img := "new.png" }

/-- Codex used by the C5 counterexample. -/
def emptyNameCodex : Item := { blankItem with id := 1, uuid := 1, owner := some 9 }

/-- Blueprint used by the C5 counterexample: its display name is empty. -/
def emptyNameBp : Item := { blankItem with id := 2, uuid := 2, owner := some 9, name := "" }

/-- Store used by the C5 counterexample. -/
def emptyNameState : GameState :=
  { folders := [], items := [emptyNameCodex, emptyNameBp], actors := [], nextId := 30 }

/-- Codex used by the C5 witness. -/
def cwCodex : Item := { blankItem with id := 1, uuid := 1, owner := some 9 }

/-- Blueprint used by the C5 witness. -/
def cwBp : Item := { blankItem with id := 2, uuid := 2, owner := some 9, name := "Gear" }

/-- Store used by the C5 witness. -/
def cwState : GameState :=
  { folders := [], items := [cwCodex, cwBp], actors := [], nextId := 40 }

/-- Codex used by the C6 counterexample. -/
def fracCodex : Item := { blankItem with id := 1, uuid := 1, owner := some 9 }

/-- Blueprint used by the C6 counterexample. -/
def fracBp : Item := { blankItem with id := 2, uuid := 2, owner := some 9, name := "Coil" }

/-- Store used by the C6 counterexample. -/
def fracState : GameState :=
  { folders := [], items := [fracCodex, fracBp], actors := [], nextId := 50 }

/-- Bool membership of an id in a list of ids. -/
def idMem (x : Nat) : List Nat → Bool
  | [] => false
  | y :: t => (x == y) || idMem x t

/-- Store well-formedness for folder repair: folder ids are distinct, and
every id and parent pointer lies below the fresh-id counter. -/
def FoldersWF (t : GameState) : Prop :=
  (t.folders.map (fun f => f.id)).Nodup ∧
  ∀ f ∈ t.folders, f.id < t.nextId ∧ ∀ p, f.parent = some p → p < t.nextId

/-- After repair, name `n` has a subfolder under `r` and every duplicate
beyond the first is non-empty. -/
def SubPost (t : GameState) (r : Folder) (n : String) : Prop :=
  t.folders.filter (isSubCand n r.id) ≠ [] ∧
  ∀ f ∈ (t.folders.filter (isSubCand n r.id)).drop 1,
    isFolderEmpty t.folders t.items f = false

/-- After repair, every remaining stray named `n` is non-empty. -/
def StrayPost (t : GameState) (n : String) : Prop :=
  ∀ f ∈ t.folders.filter (isStrayCand n), isFolderEmpty t.folders t.items f = false

/-- After repair, `r` is the first root candidate and every other root
candidate is non-empty. -/
def RootPost (t : GameState) (r : Folder) : Prop :=
  (t.folders.filter isRootCand).head? = some r ∧
  ∀ f ∈ (t.folders.filter isRootCand).drop 1, isFolderEmpty t.folders t.items f = false

/-- The fixed point of `ensureFolderHierarchy`. -/
def Settled (t : GameState) (r : Folder) : Prop :=
  RootPost t r ∧ (∀ n ∈ SPELL_LEVEL_FOLDERS, SubPost t r n) ∧
  ∀ n ∈ SPELL_LEVEL_FOLDERS, StrayPost t n

/-- Non-empty stray folder used by the C7 witness. -/
def wfFolder : Folder := { id := 0, name := "1st", ftype := "Item", parent := none }

/-- Store used by the C7 witness: a stray `1st` folder holding one item. -/
def wfState : GameState :=
  { folders := [wfFolder],
    items := [{ blankItem with id := 1, uuid := 1, folder := some 0 }],
    actors := [], nextId := 2 }

/-- Claim C1: for every `recall(recordRef, containerRef)` call, if the record
does not exist or its `originUuid` back-reference differs from
`containerRef`, `recall` returns `false` and the store is untouched; if the
back-reference matches, the record is deleted (from its owner, or outright
when ownerless) and `recall` returns `true`. -/
theorem recall_authorization (s : GameState) (itemUuid codexUuid : Nat) :
    (s.items.find? (fun i => i.uuid == itemUuid) = none →
      gmRecall s itemUuid codexUuid = (s, false)) ∧
    ∀ it, s.items.find? (fun i => i.uuid == itemUuid) = some it →
      (it.originUuid ≠ some codexUuid → gmRecall s itemUuid codexUuid = (s, false)) ∧
      (it.originUuid = some codexUuid →
        (gmRecall s itemUuid codexUuid).2 = true ∧
        (gmRecall s itemUuid codexUuid).1.items
          = s.items.filter (fun i => !(i.owner == it.owner && i.id == it.id)) ∧
        (gmRecall s itemUuid codexUuid).1.folders = s.folders ∧
        (gmRecall s itemUuid codexUuid).1.actors = s.actors) := by
  refine ⟨fun h => ?_, fun it h => ⟨fun hne => ?_, fun heq => ?_⟩⟩
  · simp only [gmRecall, h]
  · simp only [gmRecall, h]
    rw [if_neg (by simp [hne])]
  · simp only [gmRecall, h]
    rw [if_pos (by simp [heq])]
    rcases how : it.owner with _ | oa
    · simp only [how, Option.isSome_none, Bool.false_eq_true, if_false]
      exact ⟨trivial, trivial, trivial, trivial⟩
    · simp only [how, Option.isSome_some, if_true]
      exact ⟨trivial, trivial, trivial, trivial⟩

/-- Witness for C1: a mismatched container reference is refused with the
store untouched, a matching one succeeds. -/
theorem recall_authorization_witness :
    gmRecall recallTestState 10 99 = (recallTestState, false) ∧
    (gmRecall recallTestState 10 7).2 = true := by
  constructor
  · exact ((recall_authorization recallTestState 10 99).2 recallTestItem (by decide)).1
      (by decide)
  · exact ((((recall_authorization recallTestState 10 7).2 recallTestItem (by decide)).2)
      (by decide)).1

/-! ## Claim C2: fabricate with an exhausted resource pool -/

/-- Claim C2: when the owner's spell-slot pool for the requested category is
`0` or not a finite number (absent), `fabricate` fails and the whole store —
in particular the pool and the target's items — is unchanged. -/
theorem fabricate_zero_pool (s : GameState)
    (ownerUuid targetUuid blueprintUuid codexUuid : Nat) (slotLevel : Int)
    (owner : Actor)
    (ho : s.actors.find? (fun a => a.uuid == ownerUuid) = some owner)
    (hp : getSpellSlots owner slotLevel = none ∨ getSpellSlots owner slotLevel = some 0) :
    gmFabricate s ownerUuid targetUuid blueprintUuid codexUuid slotLevel = (s, false) := by
  rcases ht : s.actors.find? (fun a => a.uuid == targetUuid) with _ | t
  all_goals rcases hb : s.items.find? (fun i => i.uuid == blueprintUuid) with _ | bp
  all_goals simp only [gmFabricate, ho, ht, hb]
  rcases hp with hp | hp <;> simp only [hp]
  norm_num

/-- Witness for C2: fabricating at level 3 with an empty pool fails and
leaves the store unchanged. -/
theorem fabricate_zero_pool_witness :
    gmFabricate fabricateTestState 1 2 20 30 3 = (fabricateTestState, false) :=
  fabricate_zero_pool fabricateTestState 1 2 20 30 3 fabricateTestOwner (by decide)
    (Or.inr (by decide))

/-! ## Claim C8: mirror with a missing category folder -/

/-- Claim C8: when the folder matching the category does not exist —
in particular whenever the root folder is absent — `mirror` performs no
store mutation and surfaces nothing to the caller beyond a console log
(the `Bool` component records that the warning branch was taken). -/
theorem mirror_missing_folder (s : GameState) (payload : Item) (actorItemUuid : Nat)
    (level : Option Int) :
    (getSpellLevelFolder s level = none →
      gmMirror s payload actorItemUuid level = (s, true)) ∧
    (s.folders.find? isRootCand = none → getSpellLevelFolder s level = none) := by
  constructor
  · intro h; simp only [gmMirror, h]
  · intro h; simp only [getSpellLevelFolder, h]

/-- Witness for C8: with no root folder, a level-2 mirror call is a silent
no-op. -/
theorem mirror_missing_folder_witness :
    gmMirror mirrorMissState blankItem 3 (some 2) = (mirrorMissState, true) ∧
    getSpellLevelFolder mirrorMissState (some 2) = none := by
  exact ⟨(mirror_missing_folder mirrorMissState blankItem 3 (some 2)).1 (by decide),
         (mirror_missing_folder mirrorMissState blankItem 3 (some 2)).2 (by decide)⟩

/-! ## List helper lemmas -/

theorem find?_append_of_none {α : Type} {l : List α} (l' : List α) {p : α → Bool}
    (h : l.find? p = none) : (l ++ l').find? p = l'.find? p := by
  induction l with
  | nil => rfl
  | cons a t ih =>
    cases hpa : p a with
    | false =>
      simp only [List.find?_cons, hpa] at h
      simpa only [List.cons_append, List.find?_cons, hpa] using ih h
    | true => simp [List.find?_cons, hpa] at h

theorem find?_eq_head?_filter {α : Type} (l : List α) (p : α → Bool) :
    l.find? p = (l.filter p).head? := by
  induction l with
  | nil => rfl
  | cons a t ih =>
    cases hpa : p a with
    | false => simpa only [List.find?_cons, hpa, List.filter_cons, Bool.false_eq_true,
        if_false] using ih
    | true => simp only [List.find?_cons, hpa, List.filter_cons, if_true, List.head?_cons]

theorem filter_map_comm {α : Type} (l : List α) (f : α → α) (p : α → Bool)
    (hp : ∀ a, p (f a) = p a) : (l.map f).filter p = (l.filter p).map f := by
  induction l with
  | nil => rfl
  | cons a t ih =>
    cases hpa : p a with
    | false => simp only [List.map_cons, List.filter_cons, hp, hpa, Bool.false_eq_true,
        if_false, ih]
    | true => simp only [List.map_cons, List.filter_cons, hp, hpa, if_true, ih]

theorem find?_map_comm {α : Type} (l : List α) (f : α → α) (p : α → Bool)
    (hp : ∀ a, p (f a) = p a) : (l.map f).find? p = (l.find? p).map f := by
  induction l with
  | nil => rfl
  | cons a t ih =>
    cases hpa : p a with
    | false => simpa only [List.map_cons, List.find?_cons, hp, hpa] using ih
    | true => simp only [List.map_cons, List.find?_cons, hp, hpa, Option.map_some']

/-! ## Claim C4: ensure-container idempotence -/

/-- Claim C4: `ensure-container` is idempotent — calling it twice returns the
same container reference both times and the second call changes nothing; and
it returns `null` when the owner is missing, or when the owner has no
container yet and the world template is missing (when the owner already has
a container that container is returned, template or not). -/
theorem ensureContainer_idempotent (s : GameState) (u : Nat) :
    (gmAddCodexToActor (gmAddCodexToActor s u).1 u).2 = (gmAddCodexToActor s u).2 ∧
    (gmAddCodexToActor (gmAddCodexToActor s u).1 u).1 = (gmAddCodexToActor s u).1 ∧
    ((s.actors.find? (fun a => a.uuid == u) = none ∨
      (s.items.find? (fun i => i.owner == some u && isCodexItem i) = none ∧
       s.items.find? (fun i => i.owner == none && i.isCodex) = none)) →
      (gmAddCodexToActor s u).2 = none) := by
  rcases ha : s.actors.find? (fun a => a.uuid == u) with _ | a
  · simp only [gmAddCodexToActor, ha]
    exact ⟨trivial, trivial, fun _ => trivial⟩
  · rcases he : s.items.find? (fun i => i.owner == some u && isCodexItem i) with _ | e
    · rcases hw : s.items.find? (fun i => i.owner == none && i.isCodex) with _ | w
      · simp only [gmAddCodexToActor, ha, he, hw]
        exact ⟨trivial, trivial, fun _ => trivial⟩
      · have hwc : w.isCodex = true := by
          have := List.find?_some hw
          simp only [Bool.and_eq_true] at this
          exact this.2
        have hstep : gmAddCodexToActor s u =
            ({ s with
                items := s.items ++
                  [{ w with
                      id := s.nextId, uuid := s.nextId, folder := none,
                      container := none, containerId := none, owner := some u }],
                nextId := s.nextId + 1 }, some s.nextId) := by
          simp only [gmAddCodexToActor, ha, he, hw]
        rw [hstep]
        refine ⟨?_, ?_, ?_⟩
        · simp only [gmAddCodexToActor, ha]
          rw [find?_append_of_none _ he]
          simp [List.find?_cons, isCodexItem, hwc]
        · simp only [gmAddCodexToActor, ha]
          rw [find?_append_of_none _ he]
          simp [List.find?_cons, isCodexItem, hwc]
        · rintro (h | ⟨h1, h2⟩)
          · rw [ha] at h; exact absurd h (by simp)
          · rw [hw] at h2; exact absurd h2 (by simp)
    · simp only [gmAddCodexToActor, ha, he]
      refine ⟨trivial, trivial, ?_⟩
      rintro (h | ⟨h1, h2⟩)
      · exact absurd h (by simp)
      · exact absurd h1 (by simp)

/-- Witness for C4: the double call returns the same reference, and a
missing owner yields `null`. -/
theorem ensureContainer_idempotent_witness :
    (gmAddCodexToActor (gmAddCodexToActor ecState 1).1 1).2
      = (gmAddCodexToActor ecState 1).2 ∧
    (gmAddCodexToActor ecState 99).2 = none := by
  exact ⟨(ensureContainer_idempotent ecState 1).1,
         (ensureContainer_idempotent ecState 99).2.2 (Or.inl (by decide))⟩

/-! ## Claim C9: category lookup falls back to the record's own flag -/

/-- Claim C9: when neither assignment map yields a valid category `1..9`,
`getSlotLevel` falls back to the blueprint's own `spellLevel` flag: the
result is `some n` exactly when that flag holds a non-null value whose
`parseInt` is an integer `n` with `1 ≤ n ≤ 9`; otherwise it is `null`. -/
theorem slotLevel_flag_fallback (cx bp : Item)
    (h1 : finiteInRange (parseIntOptJS (getKey cx.slotLevelsByUuid bp.uuid)) = false)
    (h2 : finiteInRange (parseIntOptJS (getKey cx.slotLevelsByName bp.name)) = false) :
    ∀ n : Int, getSlotLevel cx bp = some n ↔
      ∃ v, bp.spellLevel = some v ∧ v ≠ JSInput.jsNull ∧ parseIntJS v = some n ∧
        1 ≤ n ∧ n ≤ 9 := by
  intro n
  simp only [getSlotLevel, h1, h2, Bool.false_eq_true, if_false]
  rcases hsp : bp.spellLevel with _ | v
  · simp
  · cases hnull : v == JSInput.jsNull with
    | true =>
      have : v = JSInput.jsNull := by simpa using hnull
      subst this
      simp
    | false =>
      have hvne : v ≠ JSInput.jsNull := by simpa using hnull
      simp only [hnull, Bool.false_eq_true, if_false]
      rcases hpv : parseIntJS v with _ | m
      · simp only [finiteInRange, Bool.false_eq_true, if_false]
        constructor
        · intro h; exact absurd h (by simp)
        · rintro ⟨v', hv', _, hp', _⟩
          cases hv'
          rw [hpv] at hp'
          exact absurd hp' (by simp)
      · cases hm : finiteInRange (some m) with
        | true =>
          simp only [hm, if_true]
          constructor
          · intro h
            cases h
            refine ⟨v, rfl, hvne, hpv, ?_⟩
            simpa [finiteInRange, Bool.and_eq_true, decide_eq_true_eq] using hm
          · rintro ⟨v', hv', _, hp', _⟩
            cases hv'
            rw [hpv] at hp'
            exact hp'
        | false =>
          simp only [hm, Bool.false_eq_true, if_false]
          constructor
          · intro h; exact absurd h (by simp)
          · rintro ⟨v', hv', _, hp', hn1, hn9⟩
            cases hv'
            rw [hpv] at hp'
            cases hp'
            exact absurd hm (by simp [finiteInRange, hn1, hn9])

/-- Witness for C9: a blueprint absent from both maps still reports its
flag's category. -/
theorem slotLevel_flag_fallback_witness :
    getSlotLevel fallbackCodex fallbackBp = some 4 := by
  exact (slotLevel_flag_fallback fallbackCodex fallbackBp (by decide) (by decide) 4).2
    ⟨JSInput.jsNum 4 false, rfl, by decide, by decide, by decide, by decide⟩

/-! ## Mirror helper lemmas (shared by C3 and C10) -/

theorem map_congr_mem {α β : Type} {l : List α} {f g : α → β}
    (h : ∀ a ∈ l, f a = g a) : l.map f = l.map g := by
  induction l with
  | nil => rfl
  | cons a t ih =>
    simp only [List.map_cons, h a (by simp)]
    rw [ih (fun b hb => h b (by simp [hb]))]

/-- `gmMirror` never touches the folder collection. -/
theorem gmMirror_folders (s : GameState) (p : Item) (u : Nat) (level : Option Int) :
    ((gmMirror s p u level).1).folders = s.folders := by
  rcases h : getSpellLevelFolder s level with _ | f
  · simp only [gmMirror, h]
  · rcases hm : s.items.find? (isMirrorOf u) with _ | m
    · simp only [gmMirror, h, hm]
    · simp only [gmMirror, h, hm]
      split <;> rfl

/-- `getSpellLevelFolder` reads only the folder collection. -/
theorem getSpellLevelFolder_eq_of_folders (s t : GameState) (h : t.folders = s.folders)
    (level : Option Int) : getSpellLevelFolder t level = getSpellLevelFolder s level := by
  unfold getSpellLevelFolder
  rw [h]

/-- Helper: one `gmMirror` call with an existing target folder, on a store
holding at most one mirror of `src`, leaves exactly one mirror of `src` and
it sits in the target folder. -/
theorem gmMirror_post (s : GameState) (p : Item) (src : Nat) (level : Option Int)
    (f : Folder) (hf : getSpellLevelFolder s level = some f)
    (hc : (s.items.filter (isMirrorOf src)).length ≤ 1) :
    ((gmMirror s p src level).1.items.filter (isMirrorOf src)).length = 1 ∧
    ∀ i ∈ (gmMirror s p src level).1.items, isMirrorOf src i = true →
      i.folder = some f.id := by
  rcases hfil : s.items.filter (isMirrorOf src) with _ | ⟨m, rest⟩
  · -- no existing mirror: the call creates one
    have hfind : s.items.find? (isMirrorOf src) = none := by
      rw [find?_eq_head?_filter, hfil]; rfl
    simp only [gmMirror, hf, hfind]
    constructor
    · rw [List.filter_append, hfil]
      simp [isMirrorOf]
    · intro i hi hpred
      rcases List.mem_append.mp hi with hi | hi
      · exfalso
        have : i ∈ s.items.filter (isMirrorOf src) := List.mem_filter.mpr ⟨hi, hpred⟩
        rw [hfil] at this
        exact absurd this (List.not_mem_nil i)
      · rcases List.mem_singleton.mp hi with rfl
        rfl
  · -- exactly one existing mirror `m`
    have hrest : rest = [] := by
      have := hfil ▸ hc
      simpa using List.length_eq_zero.mp (by simpa using this)
    subst hrest
    have hfind : s.items.find? (isMirrorOf src) = some m := by
      rw [find?_eq_head?_filter, hfil]; rfl
    have hmpred : isMirrorOf src m = true := (List.mem_filter.mp (hfil ▸ List.mem_cons_self m [])).2
    have hmown : m.owner = none := by
      have := hmpred
      simp only [isMirrorOf, Bool.and_eq_true, beq_iff_eq] at this
      exact this.1
    simp only [gmMirror, hf, hfind]
    by_cases hmf : (m.folder == some f.id) = true
    · -- already in the right folder: only name/image refresh
      simp only [hmf, if_true, updateWorldItemById]
      set g : Item → Item := fun i =>
        if i.owner == none && i.id == m.id then { i with name := p.name, img := p.img } else i
        with hg
      have hpres : ∀ i, isMirrorOf src (g i) = isMirrorOf src i := by
        intro i
        simp only [hg, isMirrorOf]
        split <;> rfl
      have hflt : (s.items.map g).filter (isMirrorOf src) = [g m] := by
        rw [filter_map_comm _ _ _ hpres, hfil]; rfl
      refine ⟨by rw [hflt]; rfl, ?_⟩
      intro i hi hpred
      have : i ∈ [g m] := by
        rw [← hflt]; exact List.mem_filter.mpr ⟨hi, hpred⟩
      rcases List.mem_singleton.mp this with rfl
      have hcond : (m.owner == none && m.id == m.id) = true := by simp [hmown]
      simp only [hg, hcond, if_true]
      exact beq_iff_eq.mp hmf
    · -- relocate, then refresh name/image
      rw [if_neg hmf]
      simp only [updateWorldItemById]
      set g1 : Item → Item := fun i =>
        if i.owner == none && i.id == m.id then { i with folder := some f.id } else i
        with hg1
      set g2 : Item → Item := fun i =>
        if i.owner == none && i.id == m.id then { i with name := p.name, img := p.img } else i
        with hg2
      have hpres1 : ∀ i, isMirrorOf src (g1 i) = isMirrorOf src i := by
        intro i; simp only [hg1, isMirrorOf]; split <;> rfl
      have hpres2 : ∀ i, isMirrorOf src (g2 i) = isMirrorOf src i := by
        intro i; simp only [hg2, isMirrorOf]; split <;> rfl
      have hflt : ((s.items.map g1).map g2).filter (isMirrorOf src) = [g2 (g1 m)] := by
        rw [filter_map_comm _ _ _ hpres2, filter_map_comm _ _ _ hpres1, hfil]; rfl
      refine ⟨by rw [hflt]; rfl, ?_⟩
      intro i hi hpred
      have : i ∈ [g2 (g1 m)] := by
        rw [← hflt]; exact List.mem_filter.mpr ⟨hi, hpred⟩
      rcases List.mem_singleton.mp this with rfl
      have hcond : (m.owner == none && m.id == m.id) = true := by simp [hmown]
      have hg1m : g1 m = { m with folder := some f.id } := by
        simp only [hg1, hcond, if_true]
      rw [hg1m]
      have hcond2 : (({ m with folder := some f.id } : Item).owner == none &&
          ({ m with folder := some f.id } : Item).id == m.id) = true := by simp [hmown]
      simp only [hg2, hcond2, if_true]

/-! ## Claim C3: at most one mirror per source record -/

/-- Claim C3: with both category folders present and at most one mirror of
`sourceRef` in the store, mirroring to `catA` and then to `catB` leaves
exactly one mirror of `sourceRef`, and it sits in `catB`'s folder. -/
theorem mirror_at_most_one (s : GameState) (p : Item) (src : Nat)
    (catA catB : Option Int) (fA fB : Folder)
    (hA : getSpellLevelFolder s catA = some fA)
    (hB : getSpellLevelFolder s catB = some fB)
    (hinv : (s.items.filter (isMirrorOf src)).length ≤ 1) :
    (((gmMirror (gmMirror s p src catA).1 p src catB).1.items.filter
        (isMirrorOf src)).length = 1) ∧
    ∀ i ∈ (gmMirror (gmMirror s p src catA).1 p src catB).1.items,
      isMirrorOf src i = true → i.folder = some fB.id := by
  have h1 := gmMirror_post s p src catA fA hA hinv
  have hB1 : getSpellLevelFolder (gmMirror s p src catA).1 catB = some fB := by
    rw [getSpellLevelFolder_eq_of_folders s _ (gmMirror_folders s p src catA) catB]
    exact hB
  have h2 := gmMirror_post (gmMirror s p src catA).1 p src catB fB hB1 (by omega)
  exact h2

/-- Witness for C3: mirroring source `42` to level 2 and then level 5 leaves
exactly one mirror. -/
theorem mirror_at_most_one_witness :
    (((gmMirror (gmMirror mwState mwPayload 42 (some 2)).1 mwPayload 42 (some 5)).1.items.filter
        (isMirrorOf 42)).length = 1) := by
  exact (mirror_at_most_one mwState mwPayload 42 (some 2) (some 5) mwF2 mwF5
    (by decide) (by decide) (by decide)).1

/-! ## Claim C10: the update path changes only folder, name and image -/

/-- Claim C10: when a mirror of `sourceRef` already exists (and the target
folder does), `mirror` only rewrites that mirror's folder, name and image;
every other field — in particular the stored `spellLevel` flag — and every
other item, folder and actor is untouched, and nothing is created.  Hence a
relocated mirror can keep a `spellLevel` flag that differs from the folder
it sits in (see the witness). -/
theorem mirror_update_frame (s : GameState) (p : Item) (src : Nat) (level : Option Int)
    (f : Folder) (m : Item)
    (hf : getSpellLevelFolder s level = some f)
    (hm : s.items.find? (isMirrorOf src) = some m)
    (hN : ((s.items.filter (fun i => i.owner == none)).map (fun i => i.id)).Nodup) :
    gmMirror s p src level =
      ({ s with
          items := s.items.map (fun i =>
            if i.owner == none && i.id == m.id then
              { i with folder := some f.id, name := p.name, img := p.img }
            else i) }, false) := by
  have hmpred : isMirrorOf src m = true := List.find?_some hm
  have hmmem : m ∈ s.items := List.mem_of_find?_eq_some hm
  have hmown : m.owner = none := by
    have := hmpred
    simp only [isMirrorOf, Bool.and_eq_true, beq_iff_eq] at this
    exact this.1
  simp only [gmMirror, hf, hm]
  by_cases hmf : (m.folder == some f.id) = true
  · -- no relocation needed: `i.folder` is already `some f.id` for `i = m`
    simp only [hmf, if_true, updateWorldItemById]
    refine congrArg (fun l => (({ s with items := l } : GameState), false)) ?_
    refine map_congr_mem ?_
    intro i hi
    by_cases hci : (i.owner == none && i.id == m.id) = true
    · have hieq : i = m := by
        have hio : i.owner = none := by
          have := hci; simp only [Bool.and_eq_true, beq_iff_eq] at this; exact this.1
        have hid : i.id = m.id := by
          have := hci; simp only [Bool.and_eq_true, beq_iff_eq] at this; exact this.2
        have hifil : i ∈ s.items.filter (fun i => i.owner == none) :=
          List.mem_filter.mpr ⟨hi, by simp [hio]⟩
        have hmfil : m ∈ s.items.filter (fun i => i.owner == none) :=
          List.mem_filter.mpr ⟨hmmem, by simp [hmown]⟩
        exact List.inj_on_of_nodup_map hN hifil hmfil hid
      subst hieq
      have hif : i.folder = some f.id := beq_iff_eq.mp hmf
      simp only [hci, if_true]
      rw [← hif]
    · simp only [if_neg hci]
  · rw [if_neg hmf]
    simp only [updateWorldItemById]
    refine congrArg (fun l => (({ s with items := l } : GameState), false)) ?_
    rw [List.map_map]
    refine map_congr_mem ?_
    intro i _
    by_cases hci : (i.owner == none && i.id == m.id) = true
    · have hstep : (fun i => if i.owner == none && i.id == m.id then
          ({ i with folder := some f.id } : Item) else i) i = { i with folder := some f.id } := by
        simp only [hci, if_true]
      simp only [Function.comp_apply, hstep]
      have hci2 : (({ i with folder := some f.id } : Item).owner == none &&
          ({ i with folder := some f.id } : Item).id == m.id) = true := hci
      simp only [hci2, if_true, hci]
    · simp only [Function.comp_apply, if_neg hci]

/-- Witness for C10: relocating the mirror to level 5 updates folder, name
and image but leaves the stored `spellLevel` flag at 2 — now disagreeing
with the folder it sits in. -/
theorem mirror_update_frame_witness :
    ((gmMirror mfState mfPayload 42 (some 5)).1.items.map
        (fun i => (i.folder, i.spellLevel, i.name, i.img)))
      = [(some 5, some (JSInput.jsNum 2 false), "New", "new.png")] ∧
    (gmMirror mfState mfPayload 42 (some 5)).2 = false := by
  have h := mirror_update_frame mfState mfPayload 42 (some 5) mwF5 mfMirror
    (by decide) (by decide) (by decide)
  rw [h]
  exact ⟨rfl, rfl⟩

/-! ## Map lemmas for the assignment maps -/

theorem find?_append_some {α : Type} {l : List α} (l' : List α) {p : α → Bool} {a : α}
    (h : l.find? p = some a) : (l ++ l').find? p = some a := by
  induction l with
  | nil => simp [List.find?] at h
  | cons x t ih =>
    cases hp : p x with
    | true =>
      simp only [List.find?_cons, hp] at h
      simpa only [List.cons_append, List.find?_cons, hp] using h
    | false =>
      simp only [List.find?_cons, hp] at h
      simpa only [List.cons_append, List.find?_cons, hp] using ih h

theorem getKey_map_set {α β : Type} [BEq α] [LawfulBEq α] (m : List (α × β)) (k : α) (v : β)
    (h : m.any (fun e => e.1 == k) = true) :
    getKey (m.map (fun e => if e.1 == k then (k, v) else e)) k = some v := by
  induction m with
  | nil => simp at h
  | cons e t ih =>
    by_cases he : (e.1 == k) = true
    · simp [getKey, List.find?_cons, he]
    · have ht : t.any (fun x => x.1 == k) = true := by
        rcases List.any_eq_true.mp h with ⟨x, hx, hpx⟩
        rcases List.mem_cons.mp hx with rfl | hx
        · exact absurd hpx he
        · exact List.any_eq_true.mpr ⟨x, hx, hpx⟩
      have := ih ht
      simpa [getKey, List.find?_cons, he] using this

theorem getKey_setKey_self {α β : Type} [BEq α] [LawfulBEq α] (m : List (α × β)) (k : α)
    (v : β) : getKey (setKey m k v) k = some v := by
  unfold setKey
  by_cases h : m.any (fun e => e.1 == k) = true
  · rw [if_pos h]
    exact getKey_map_set m k v h
  · rw [if_neg h]
    have hf : m.find? (fun e => e.1 == k) = none := by
      refine List.find?_eq_none.mpr ?_
      intro x hx hpx
      exact h (List.any_eq_true.mpr ⟨x, hx, hpx⟩)
    unfold getKey
    rw [find?_append_of_none _ hf]
    simp [List.find?_cons]

theorem getKey_delKey_self {α β : Type} [BEq α] [LawfulBEq α] (m : List (α × β)) (k : α) :
    getKey (delKey m k) k = none := by
  unfold getKey delKey
  rw [List.find?_eq_none.mpr]
  · rfl
  · intro x hx hpx
    have := (List.mem_filter.mp hx).2
    rw [hpx] at this
    exact absurd this (by simp)

/-! ## Tracking `setSlotLevelForBlueprint` through the store -/

theorem find?_uuid_updateItemByUuid (s : GameState) (u : Nat) (f : Item → Item)
    (hf : ∀ i, (f i).uuid = i.uuid) (u' : Nat) :
    (updateItemByUuid s u f).items.find? (fun i => i.uuid == u')
      = (s.items.find? (fun i => i.uuid == u')).map
          (fun i => if i.uuid == u then f i else i) := by
  unfold updateItemByUuid
  refine find?_map_comm _ _ _ ?_
  intro i
  by_cases h : (i.uuid == u) = true <;> simp [h, hf]

/-- The three flag updates of `setSlotLevelForBlueprint` leave the codex
findable under its uuid, carrying exactly the rewritten maps. -/
theorem find?_three_updates (s : GameState) (cu bu : Nat) (cx : Item)
    (hcx : s.items.find? (fun i => i.uuid == cu) = some cx)
    (M1 : List (Nat × JSInput)) (M2 : List (String × JSInput)) (sv : Option JSInput) :
    ∃ cx', (updateItemByUuid (updateItemByUuid (updateItemByUuid s cu
        (fun i => { i with slotLevelsByUuid := M1 })) cu
        (fun i => { i with slotLevelsByName := M2 })) bu
        (fun i => { i with spellLevel := sv })).items.find? (fun i => i.uuid == cu)
        = some cx' ∧
      cx'.slotLevelsByUuid = M1 ∧ cx'.slotLevelsByName = M2 := by
  have hcxe : cx.uuid = cu := by simpa using List.find?_some hcx
  have h1 : (updateItemByUuid s cu
      (fun i => { i with slotLevelsByUuid := M1 })).items.find? (fun i => i.uuid == cu)
      = some { cx with slotLevelsByUuid := M1 } := by
    rw [find?_uuid_updateItemByUuid s cu
      (fun i => { i with slotLevelsByUuid := M1 }) (fun i => rfl) cu, hcx]
    simp [hcxe]
  have h2 : (updateItemByUuid (updateItemByUuid s cu
      (fun i => { i with slotLevelsByUuid := M1 })) cu
      (fun i => { i with slotLevelsByName := M2 })).items.find? (fun i => i.uuid == cu)
      = some { cx with slotLevelsByUuid := M1, slotLevelsByName := M2 } := by
    rw [find?_uuid_updateItemByUuid _ cu
      (fun i => { i with slotLevelsByName := M2 }) (fun i => rfl) cu, h1]
    simp [hcxe]
  have h3 := find?_uuid_updateItemByUuid (updateItemByUuid (updateItemByUuid s cu
      (fun i => { i with slotLevelsByUuid := M1 })) cu
      (fun i => { i with slotLevelsByName := M2 })) bu
      (fun i => { i with spellLevel := sv }) (fun i => rfl) cu
  rw [h2] at h3
  simp only [Option.map_some'] at h3
  refine ⟨_, h3, ?_, ?_⟩ <;> · dsimp only; split <;> rfl

/-- `gmMirror` keeps any uuid-indexed document findable and never touches
its assignment maps. -/
theorem gmMirror_find_uuid (s : GameState) (p : Item) (u' src : Nat) (level : Option Int)
    (cx : Item) (h : s.items.find? (fun i => i.uuid == u') = some cx) :
    ∃ cx', (gmMirror s p src level).1.items.find? (fun i => i.uuid == u') = some cx' ∧
      cx'.slotLevelsByUuid = cx.slotLevelsByUuid ∧
      cx'.slotLevelsByName = cx.slotLevelsByName := by
  rcases hf : getSpellLevelFolder s level with _ | f
  · refine ⟨cx, ?_, rfl, rfl⟩
    simp only [gmMirror, hf]
    exact h
  · rcases hm : s.items.find? (isMirrorOf src) with _ | m
    · refine ⟨cx, ?_, rfl, rfl⟩
      simp only [gmMirror, hf, hm]
      exact find?_append_some _ h
    · simp only [gmMirror, hf, hm]
      by_cases hmf : (m.folder == some f.id) = true
      · rw [if_pos hmf]
        simp only [updateWorldItemById]
        rw [find?_map_comm _ _ _ (fun i => by
          by_cases hc : (i.owner == none && i.id == m.id) = true <;> simp [hc])]
        rw [h]
        simp only [Option.map_some']
        refine ⟨_, rfl, ?_, ?_⟩ <;> · dsimp only; split <;> rfl
      · rw [if_neg hmf]
        simp only [updateWorldItemById]
        rw [List.map_map]
        rw [find?_map_comm _ _ _ (fun i => by
          by_cases hc : (i.owner == none && i.id == m.id) = true <;>
            simp [Function.comp, hc])]
        rw [h]
        simp only [Option.map_some']
        refine ⟨_, rfl, ?_, ?_⟩ <;>
          · simp only [Function.comp_apply]
            split <;> rfl

/-- Net effect of `setSlotLevelForBlueprint` on the codex's two assignment
maps, for any accepted input. -/
theorem setSlot_codex_maps (s : GameState) (cu bu : Nat) (level : JSInput)
    (cx bp : Item) (nl : Option Int)
    (hcx : s.items.find? (fun i => i.uuid == cu) = some cx)
    (hbp : s.items.find? (fun i => i.uuid == bu) = some bp)
    (hnl : normalizeLevel level = some nl) :
    ∃ cx', (setSlotLevelForBlueprint s cu bu level).items.find?
        (fun i => i.uuid == cu) = some cx' ∧
      cx'.slotLevelsByUuid = (match nl with
        | none => delKey cx.slotLevelsByUuid bp.uuid
        | some lvl => setKey cx.slotLevelsByUuid bp.uuid (JSInput.jsNum lvl false)) ∧
      cx'.slotLevelsByName = (if bp.name == "" then cx.slotLevelsByName
        else match nl with
        | none => delKey cx.slotLevelsByName bp.name
        | some lvl => setKey cx.slotLevelsByName bp.name (JSInput.jsNum lvl false)) := by
  rcases nl with _ | lvl
  · simp only [setSlotLevelForBlueprint, hcx, hbp, hnl]
    obtain ⟨cx3, hfind3, hm1, hm2⟩ := find?_three_updates s cu bp.uuid cx hcx
      (delKey cx.slotLevelsByUuid bp.uuid)
      (if bp.name == "" then cx.slotLevelsByName else delKey cx.slotLevelsByName bp.name)
      (some (levelFlagVal none))
    split
    · rename_i bp' hbu
      obtain ⟨cx4, hfind4, hk1, hk2⟩ := gmMirror_find_uuid _ bp' cu bp.uuid none cx3 hfind3
      exact ⟨cx4, hfind4, hk1.trans hm1, hk2.trans hm2⟩
    · exact ⟨cx3, hfind3, hm1, hm2⟩
  · simp only [setSlotLevelForBlueprint, hcx, hbp, hnl]
    obtain ⟨cx3, hfind3, hm1, hm2⟩ := find?_three_updates s cu bp.uuid cx hcx
      (setKey cx.slotLevelsByUuid bp.uuid (JSInput.jsNum lvl false))
      (if bp.name == "" then cx.slotLevelsByName
        else setKey cx.slotLevelsByName bp.name (JSInput.jsNum lvl false))
      (some (levelFlagVal (some lvl)))
    split
    · rename_i bp' hbu
      obtain ⟨cx4, hfind4, hk1, hk2⟩ := gmMirror_find_uuid _ bp' cu bp.uuid (some lvl) cx3 hfind3
      exact ⟨cx4, hfind4, hk1.trans hm1, hk2.trans hm2⟩
    · exact ⟨cx3, hfind3, hm1, hm2⟩

/-! ## Claim C5: assignment-map consistency -/

/-- Counterexample to C5 as stated: assigning category 3 to a blueprint with
an empty display name is a successful assignment (the identifier map records
3), yet the name map is not updated — `if (blueprintName)` in the source
skips it — so the two maps do not agree on the record's category. -/
theorem slot_maps_empty_name_cex :
    ((setSlotLevelForBlueprint emptyNameState 1 2 (JSInput.jsNum 3 false)).items.find?
        (fun i => i.uuid == 1)).map
        (fun i => (getKey i.slotLevelsByUuid 2, getKey i.slotLevelsByName ""))
      = some (some (JSInput.jsNum 3 false), none) := by decide

/-- Claim C5 (amended): after a successful category assignment the
identifier-keyed and name-keyed maps both record the new category *provided
the blueprint's display name is non-empty* (an empty name leaves the name
map untouched); after un-assignment (`category = null`) the blueprint's
identifier is absent from the identifier-keyed map regardless of the name. -/
theorem slot_maps_consistency (s : GameState) (cu bu : Nat) (level : JSInput)
    (cx bp : Item) (nl : Option Int)
    (hcx : s.items.find? (fun i => i.uuid == cu) = some cx)
    (hbp : s.items.find? (fun i => i.uuid == bu) = some bp)
    (hnl : normalizeLevel level = some nl) :
    ∃ cx', (setSlotLevelForBlueprint s cu bu level).items.find?
        (fun i => i.uuid == cu) = some cx' ∧
      (∀ n, nl = some n → bp.name ≠ "" →
        getKey cx'.slotLevelsByUuid bp.uuid = some (JSInput.jsNum n false) ∧
        getKey cx'.slotLevelsByName bp.name = some (JSInput.jsNum n false)) ∧
      (nl = none → getKey cx'.slotLevelsByUuid bp.uuid = none) := by
  obtain ⟨cx', hfind, hm1, hm2⟩ := setSlot_codex_maps s cu bu level cx bp nl hcx hbp hnl
  refine ⟨cx', hfind, ?_, ?_⟩
  · rintro n rfl hname
    have hnb : (bp.name == "") = false := by
      simpa using hname
    rw [hnb] at hm2
    simp only [Bool.false_eq_true, if_false] at hm2
    rw [hm1, hm2]
    exact ⟨getKey_setKey_self _ _ _, getKey_setKey_self _ _ _⟩
  · rintro rfl
    rw [hm1]
    exact getKey_delKey_self _ _

/-- Witness for C5 (amended): assigning level 4 to a named blueprint updates
both maps to 4. -/
theorem slot_maps_consistency_witness :
    ((setSlotLevelForBlueprint cwState 1 2 (JSInput.jsNum 4 false)).items.find?
        (fun i => i.uuid == 1)).map
        (fun i => (getKey i.slotLevelsByUuid cwBp.uuid, getKey i.slotLevelsByName cwBp.name))
      = some (some (JSInput.jsNum 4 false), some (JSInput.jsNum 4 false)) := by
  obtain ⟨cx', hfind, hsome, _⟩ := slot_maps_consistency cwState 1 2 (JSInput.jsNum 4 false)
    cwCodex cwBp (some 4) (by decide) (by decide) (by decide)
  obtain ⟨h1, h2⟩ := hsome 4 rfl (by decide)
  rw [hfind]
  simp only [Option.map_some', h1, h2]

/-! ## Claim C6: input validation of the assign-category workflow -/

/-- Counterexample to C6 as stated: the non-integer number `5.7` (modelled as
`jsNum 5 true`) must be rejected with no state change per the claim, but
`Number.parseInt` truncates it to `5`, the workflow accepts it, and the
store changes. -/
theorem slot_input_fractional_cex :
    normalizeLevel (JSInput.jsNum 5 true) = some (some 5) ∧
    ((setSlotLevelForBlueprint fracState 1 2 (JSInput.jsNum 5 true)).items.find?
        (fun i => i.uuid == 1)).map (fun i => getKey i.slotLevelsByUuid 2)
      = some (some (JSInput.jsNum 5 false)) ∧
    setSlotLevelForBlueprint fracState 1 2 (JSInput.jsNum 5 true) ≠ fracState := by
  refine ⟨by decide, by decide, by decide⟩

/-- Claim C6 (amended): the workflow normalises `null`, `""`, `"0"` and the
integer `0` to uncategorized; any other input is accepted (with value `n`)
exactly when `Number.parseInt(input, 10)` yields an integer `n` with
`1 ≤ n ≤ 9` — so non-integer numbers truncating into `1..9` and strings
with a digit prefix are accepted too; every remaining input is rejected and
`setSlotLevelForBlueprint` performs no state change. -/
theorem slot_input_validation (s : GameState) (cu bu : Nat) (level : JSInput) :
    (normalizeLevel level = some none ↔ isZeroLevelInput level = true) ∧
    (∀ n : Int, normalizeLevel level = some (some n) ↔
      (isZeroLevelInput level = false ∧ parseIntJS level = some n ∧ 1 ≤ n ∧ n ≤ 9)) ∧
    (normalizeLevel level = none → setSlotLevelForBlueprint s cu bu level = s) := by
  refine ⟨?_, ?_, ?_⟩
  · unfold normalizeLevel
    by_cases hz : isZeroLevelInput level = true
    · simp [hz]
    · rw [if_neg hz]
      rcases hp : parseIntJS level with _ | n
      · simp [hz]
      · by_cases hr : (1 ≤ n && n ≤ 9) = true
        · simp only [hr, if_true]
          constructor
          · intro h; cases h
          · intro h; exact absurd h hz
        · simp only [hr, Bool.false_eq_true, if_false]
          constructor
          · intro h; cases h
          · intro h; exact absurd h hz
  · intro n
    unfold normalizeLevel
    by_cases hz : isZeroLevelInput level = true
    · rw [if_pos hz]
      constructor
      · intro h; cases h
      · rintro ⟨hfz, _, _⟩
        rw [hz] at hfz; cases hfz
    · rw [if_neg hz]
      have hzf : isZeroLevelInput level = false := by
        cases h : isZeroLevelInput level
        · rfl
        · exact absurd h hz
      rcases hp : parseIntJS level with _ | m
      · constructor
        · intro h; cases h
        · rintro ⟨_, hpn, _⟩; cases hpn
      · by_cases hr : (1 ≤ m && m ≤ 9) = true
        · simp only [hr, if_true]
          constructor
          · intro h
            cases h
            have := hr
            simp only [Bool.and_eq_true, decide_eq_true_eq] at this
            exact ⟨hzf, rfl, this.1, this.2⟩
          · rintro ⟨_, hpn, _, _⟩
            cases hpn
            rfl
        · simp only [hr, Bool.false_eq_true, if_false]
          constructor
          · intro h; cases h
          · rintro ⟨_, hpn, h1, h9⟩
            cases hpn
            exact absurd hr (by simp [h1, h9])
  · intro h
    rcases hcx : s.items.find? (fun i => i.uuid == cu) with _ | cx
    all_goals rcases hbp : s.items.find? (fun i => i.uuid == bu) with _ | bp
    all_goals simp only [setSlotLevelForBlueprint, hcx, hbp, h]

/-- Witness for C6 (amended): a non-numeric string is rejected and the store
is untouched. -/
theorem slot_input_validation_witness :
    setSlotLevelForBlueprint fracState 1 2 (JSInput.jsStr "abc") = fracState := by
  exact (slot_input_validation fracState 1 2 (JSInput.jsStr "abc")).2.2 (by decide)

/-! ## Folder-repair helper lemmas (C7) -/

theorem idMem_iff_mem (x : Nat) (l : List Nat) : idMem x l = true ↔ x ∈ l := by
  induction l with
  | nil => simp [idMem]
  | cons y t ih => simp [idMem, ih, List.mem_cons, beq_iff_eq]

theorem bool_eq_of_iff {a b : Bool} (h : a = true ↔ b = true) : a = b := by
  cases a <;> cases b <;> simp_all

theorem filter_filter_my {α : Type} (p q : α → Bool) (l : List α) :
    (l.filter p).filter q = l.filter (fun a => p a && q a) := by
  induction l with
  | nil => rfl
  | cons a t ih =>
    by_cases hp : p a = true
    · by_cases hq : q a = true <;> simp [List.filter_cons, hp, hq, ih]
    · simp [List.filter_cons, hp, ih]

theorem folder_id_inj {fs : List Folder} (hN : (fs.map (fun f => f.id)).Nodup)
    {a b : Folder} (ha : a ∈ fs) (hb : b ∈ fs) (h : a.id = b.id) : a = b :=
  List.inj_on_of_nodup_map hN ha hb h

theorem nodup_ids_filter (fs : List Folder) (p : Folder → Bool)
    (hN : (fs.map (fun f => f.id)).Nodup) :
    ((fs.filter p).map (fun f => f.id)).Nodup :=
  List.Nodup.sublist (List.Sublist.map _ (List.filter_sublist fs)) hN

/-- Deleting a folder whose id belongs only to root-level (`parent = none`)
folders changes no folder's emptiness. -/
theorem empt_del_none (fs : List Folder) (its : List Item) (did : Nat)
    (h : ∀ g ∈ fs, g.id = did → g.parent = none) (f : Folder) :
    isFolderEmpty (fs.filter (fun g => !(g.id == did))) its f
      = isFolderEmpty fs its f := by
  unfold isFolderEmpty
  have hany : ((fs.filter (fun g => !(g.id == did))).any (fun c => c.parent == some f.id))
      = fs.any (fun c => c.parent == some f.id) := by
    refine bool_eq_of_iff ?_
    rw [List.any_eq_true, List.any_eq_true]
    constructor
    · rintro ⟨c, hc, hp⟩
      exact ⟨c, (List.mem_filter.mp hc).1, hp⟩
    · rintro ⟨c, hc, hp⟩
      refine ⟨c, List.mem_filter.mpr ⟨hc, ?_⟩, hp⟩
      by_cases hcd : c.id = did
      · have := h c hc hcd
        rw [this] at hp
        simp at hp
      · simp [hcd]
  rw [hany]

/-- Deleting a folder whose id belongs only to folders parented to `rid`
changes no folder's emptiness except possibly `rid`'s. -/
theorem empt_del_par (fs : List Folder) (its : List Item) (did rid : Nat)
    (h : ∀ g ∈ fs, g.id = did → g.parent = some rid) (f : Folder) (hf : f.id ≠ rid) :
    isFolderEmpty (fs.filter (fun g => !(g.id == did))) its f
      = isFolderEmpty fs its f := by
  unfold isFolderEmpty
  have hany : ((fs.filter (fun g => !(g.id == did))).any (fun c => c.parent == some f.id))
      = fs.any (fun c => c.parent == some f.id) := by
    refine bool_eq_of_iff ?_
    rw [List.any_eq_true, List.any_eq_true]
    constructor
    · rintro ⟨c, hc, hp⟩
      exact ⟨c, (List.mem_filter.mp hc).1, hp⟩
    · rintro ⟨c, hc, hp⟩
      refine ⟨c, List.mem_filter.mpr ⟨hc, ?_⟩, hp⟩
      by_cases hcd : c.id = did
      · have := h c hc hcd
        rw [this] at hp
        have : rid = f.id := by simpa using hp
        exact absurd this.symm hf
      · simp [hcd]
  rw [hany]

/-- A non-empty folder stays non-empty across a deletion parented to `rid`
when some other child of `rid` survives. -/
theorem empt_false_del_par (fs : List Folder) (its : List Item) (did rid : Nat)
    (f : Folder) (hfalse : isFolderEmpty fs its f = false)
    (h : ∀ g ∈ fs, g.id = did → g.parent = some rid)
    (w : Folder) (hw : w ∈ fs) (hwp : w.parent = some rid) (hwid : w.id ≠ did) :
    isFolderEmpty (fs.filter (fun g => !(g.id == did))) its f = false := by
  by_cases hfr : f.id = rid
  · have hany : ((fs.filter (fun g => !(g.id == did))).any
        (fun c => c.parent == some f.id)) = true := by
      refine List.any_eq_true.mpr ⟨w, List.mem_filter.mpr ⟨hw, by simp [hwid]⟩, ?_⟩
      simp [hwp, hfr]
    simp [isFolderEmpty, hany]
  · rw [empt_del_par fs its did rid h f hfr]
    exact hfalse

/-- Appending a folder parented to `rid` changes no other folder's
emptiness. -/
theorem empt_append_folder (fs : List Folder) (its : List Item) (c f : Folder)
    (hc : c.parent ≠ some f.id) :
    isFolderEmpty (fs ++ [c]) its f = isFolderEmpty fs its f := by
  unfold isFolderEmpty
  have hany : ((fs ++ [c]).any (fun x => x.parent == some f.id))
      = fs.any (fun x => x.parent == some f.id) := by
    rw [List.any_append]
    simp [List.any_cons, hc]
  rw [hany]

/-- Appending a folder never empties a non-empty folder. -/
theorem empt_false_append (fs : List Folder) (its : List Item) (c f : Folder)
    (h : isFolderEmpty fs its f = false) :
    isFolderEmpty (fs ++ [c]) its f = false := by
  simp only [isFolderEmpty, List.any_append, Bool.not_or, Bool.and_eq_false_iff] at h ⊢
  rcases h with h | h
  · exact Or.inl h
  · exact Or.inr (by simp [h])

/-- Specification of a guarded deletion sweep whose candidates are all
root-level (`parent = none`) folders: some empty candidates get deleted,
nothing else changes, and no folder's emptiness changes. -/
theorem deleteEmptyIn_none_spec (l : List Folder) (t : GameState)
    (hN : (t.folders.map (fun f => f.id)).Nodup)
    (hl : ∀ d ∈ l, d ∈ t.folders)
    (hlN : (l.map (fun f => f.id)).Nodup)
    (hpar : ∀ d ∈ l, d.parent = none) :
    ∃ dels : List Nat,
      (deleteEmptyIn t l).folders = t.folders.filter (fun g => !(idMem g.id dels)) ∧
      (deleteEmptyIn t l).items = t.items ∧
      (deleteEmptyIn t l).actors = t.actors ∧
      (deleteEmptyIn t l).nextId = t.nextId ∧
      (∀ x ∈ dels, ∃ d ∈ l, d.id = x) ∧
      (∀ f : Folder, isFolderEmpty (deleteEmptyIn t l).folders t.items f
          = isFolderEmpty t.folders t.items f) ∧
      (∀ d ∈ l, isFolderEmpty t.folders t.items d = true →
        ∀ g ∈ (deleteEmptyIn t l).folders, g.id ≠ d.id) ∧
      (∀ f ∈ t.folders, isFolderEmpty t.folders t.items f = false →
        f ∈ (deleteEmptyIn t l).folders) := by
  induction l generalizing t with
  | nil =>
    refine ⟨[], ?_, rfl, rfl, rfl, by simp, fun f => rfl, by simp, fun f hf _ => hf⟩
    simp [deleteEmptyIn, idMem]
  | cons d rest ih =>
    have hdmem : d ∈ t.folders := hl d (List.mem_cons_self d rest)
    have hdpar : d.parent = none := hpar d (List.mem_cons_self d rest)
    have hdelstep : ∀ g ∈ t.folders, g.id = d.id → g.parent = none := by
      intro g hg hgid
      rw [folder_id_inj hN hg hdmem hgid]
      exact hdpar
    have hlN' : (rest.map (fun f => f.id)).Nodup ∧ d.id ∉ rest.map (fun f => f.id) := by
      rw [List.map_cons, List.nodup_cons] at hlN
      exact ⟨hlN.2, hlN.1⟩
    rw [deleteEmptyIn]
    by_cases he : isFolderEmpty t.folders t.items d = true
    · rw [if_pos he]
      have hstep : ∀ f : Folder,
          isFolderEmpty (t.folders.filter (fun g => !(g.id == d.id))) t.items f
            = isFolderEmpty t.folders t.items f :=
        fun f => empt_del_none t.folders t.items d.id hdelstep f
      obtain ⟨dels', h1, h2, h3, h4, h5, h6, h7, h8⟩ :=
        ih { t with folders := t.folders.filter (fun g => !(g.id == d.id)) }
          (nodup_ids_filter _ _ hN)
          (fun d' hd' => List.mem_filter.mpr ⟨hl d' (List.mem_cons_of_mem d hd'), by
            have : d'.id ≠ d.id := fun hc =>
              hlN'.2 (hc ▸ List.mem_map.mpr ⟨d', hd', rfl⟩)
            simp [this]⟩)
          hlN'.1
          (fun d' hd' => hpar d' (List.mem_cons_of_mem d hd'))
      refine ⟨d.id :: dels', ?_, h2, h3, h4, ?_, ?_, ?_, ?_⟩
      · rw [h1, filter_filter_my]
        refine List.filter_congr ?_
        intro g _
        simp [idMem, Bool.not_or]
      · intro x hx0
        rcases List.mem_cons.mp hx0 with rfl | hx
        · exact ⟨d, List.mem_cons_self d rest, rfl⟩
        · obtain ⟨d', hd', hde⟩ := h5 x hx
          exact ⟨d', List.mem_cons_of_mem d hd', hde⟩
      · intro f
        exact (h6 f).trans (hstep f)
      · intro d' hd0 hemp g hg
        rcases List.mem_cons.mp hd0 with rfl | hd'
        · have hg1 := h1 ▸ hg
          have := (List.mem_filter.mp (List.mem_filter.mp hg1).1).2
          simpa using this
        · refine h7 d' hd' ?_ g hg
          rw [hstep d']
          exact hemp
      · intro f hf hfe
        have hfne : f.id ≠ d.id := by
          intro hc
          rw [folder_id_inj hN hf hdmem hc] at hfe
          rw [hfe] at he
          cases he
        refine h8 f (List.mem_filter.mpr ⟨hf, by simp [hfne]⟩) ?_
        rw [hstep f]
        exact hfe
    · rw [if_neg he]
      obtain ⟨dels', h1, h2, h3, h4, h5, h6, h7, h8⟩ :=
        ih t hN (fun d' hd' => hl d' (List.mem_cons_of_mem d hd')) hlN'.1
          (fun d' hd' => hpar d' (List.mem_cons_of_mem d hd'))
      refine ⟨dels', h1, h2, h3, h4, ?_, h6, ?_, h8⟩
      · intro x hx
        obtain ⟨d', hd', hde⟩ := h5 x hx
        exact ⟨d', List.mem_cons_of_mem d hd', hde⟩
      · intro d' hd0 hemp g hg
        rcases List.mem_cons.mp hd0 with rfl | hd'
        · exact absurd hemp he
        · exact h7 d' hd' hemp g hg

/-- Specification of a guarded deletion sweep whose candidates are all
parented to `rid` (the duplicate-subfolder sweep), with a surviving witness
child `w` of `rid`: emptiness is preserved away from `rid`, and non-empty
folders survive with their non-emptiness. -/
theorem deleteEmptyIn_par_spec (l : List Folder) (t : GameState) (rid : Nat)
    (hN : (t.folders.map (fun f => f.id)).Nodup)
    (hl : ∀ d ∈ l, d ∈ t.folders)
    (hlN : (l.map (fun f => f.id)).Nodup)
    (hpar : ∀ d ∈ l, d.parent = some rid)
    (hir : ∀ d ∈ l, d.id ≠ rid)
    (w : Folder) (hw : w ∈ t.folders) (hwp : w.parent = some rid)
    (hwid : ∀ d ∈ l, w.id ≠ d.id) :
    ∃ dels : List Nat,
      (deleteEmptyIn t l).folders = t.folders.filter (fun g => !(idMem g.id dels)) ∧
      (deleteEmptyIn t l).items = t.items ∧
      (deleteEmptyIn t l).actors = t.actors ∧
      (deleteEmptyIn t l).nextId = t.nextId ∧
      (∀ x ∈ dels, ∃ d ∈ l, d.id = x) ∧
      (∀ f : Folder, f.id ≠ rid → isFolderEmpty (deleteEmptyIn t l).folders t.items f
          = isFolderEmpty t.folders t.items f) ∧
      (∀ f : Folder, isFolderEmpty t.folders t.items f = false →
        isFolderEmpty (deleteEmptyIn t l).folders t.items f = false) ∧
      (∀ d ∈ l, isFolderEmpty t.folders t.items d = true →
        ∀ g ∈ (deleteEmptyIn t l).folders, g.id ≠ d.id) ∧
      (∀ f ∈ t.folders, isFolderEmpty t.folders t.items f = false →
        f ∈ (deleteEmptyIn t l).folders) := by
  induction l generalizing t with
  | nil =>
    refine ⟨[], ?_, rfl, rfl, rfl, by simp, fun f _ => rfl, fun f hf => hf, by simp,
      fun f hf _ => hf⟩
    simp [deleteEmptyIn, idMem]
  | cons d rest ih =>
    have hdmem : d ∈ t.folders := hl d (List.mem_cons_self d rest)
    have hdpar : d.parent = some rid := hpar d (List.mem_cons_self d rest)
    have hdelstep : ∀ g ∈ t.folders, g.id = d.id → g.parent = some rid := by
      intro g hg hgid
      rw [folder_id_inj hN hg hdmem hgid]
      exact hdpar
    have hlN' : (rest.map (fun f => f.id)).Nodup ∧ d.id ∉ rest.map (fun f => f.id) := by
      rw [List.map_cons, List.nodup_cons] at hlN
      exact ⟨hlN.2, hlN.1⟩
    rw [deleteEmptyIn]
    by_cases he : isFolderEmpty t.folders t.items d = true
    · rw [if_pos he]
      have hstepeq : ∀ f : Folder, f.id ≠ rid →
          isFolderEmpty (t.folders.filter (fun g => !(g.id == d.id))) t.items f
            = isFolderEmpty t.folders t.items f :=
        fun f hf => empt_del_par t.folders t.items d.id rid hdelstep f hf
      have hstepfalse : ∀ f : Folder, isFolderEmpty t.folders t.items f = false →
          isFolderEmpty (t.folders.filter (fun g => !(g.id == d.id))) t.items f = false :=
        fun f hf => empt_false_del_par t.folders t.items d.id rid f hf hdelstep w hw hwp
          (hwid d (List.mem_cons_self d rest))
      obtain ⟨dels', h1, h2, h3, h4, h5, h6, h6b, h7, h8⟩ :=
        ih { t with folders := t.folders.filter (fun g => !(g.id == d.id)) }
          (nodup_ids_filter _ _ hN)
          (fun d' hd' => List.mem_filter.mpr ⟨hl d' (List.mem_cons_of_mem d hd'), by
            have : d'.id ≠ d.id := fun hc =>
              hlN'.2 (hc ▸ List.mem_map.mpr ⟨d', hd', rfl⟩)
            simp [this]⟩)
          hlN'.1
          (fun d' hd' => hpar d' (List.mem_cons_of_mem d hd'))
          (fun d' hd' => hir d' (List.mem_cons_of_mem d hd'))
          (List.mem_filter.mpr ⟨hw, by simp [hwid d (List.mem_cons_self d rest)]⟩)
          (fun d' hd' => hwid d' (List.mem_cons_of_mem d hd'))
      refine ⟨d.id :: dels', ?_, h2, h3, h4, ?_, ?_, ?_, ?_, ?_⟩
      · rw [h1, filter_filter_my]
        refine List.filter_congr ?_
        intro g _
        simp [idMem, Bool.not_or]
      · intro x hx0
        rcases List.mem_cons.mp hx0 with rfl | hx
        · exact ⟨d, List.mem_cons_self d rest, rfl⟩
        · obtain ⟨d', hd', hde⟩ := h5 x hx
          exact ⟨d', List.mem_cons_of_mem d hd', hde⟩
      · intro f hf
        exact (h6 f hf).trans (hstepeq f hf)
      · intro f hf
        exact h6b f (hstepfalse f hf)
      · intro d' hd0 hemp g hg
        rcases List.mem_cons.mp hd0 with rfl | hd'
        · have hg1 := h1 ▸ hg
          have := (List.mem_filter.mp (List.mem_filter.mp hg1).1).2
          simpa using this
        · refine h7 d' hd' ?_ g hg
          rw [hstepeq d' (hir d' (List.mem_cons_of_mem d hd'))]
          exact hemp
      · intro f hf hfe
        have hfne : f.id ≠ d.id := by
          intro hc
          rw [folder_id_inj hN hf hdmem hc] at hfe
          rw [hfe] at he
          cases he
        exact h8 f (List.mem_filter.mpr ⟨hf, by simp [hfne]⟩) (hstepfalse f hfe)
    · rw [if_neg he]
      obtain ⟨dels', h1, h2, h3, h4, h5, h6, h6b, h7, h8⟩ :=
        ih t hN (fun d' hd' => hl d' (List.mem_cons_of_mem d hd')) hlN'.1
          (fun d' hd' => hpar d' (List.mem_cons_of_mem d hd'))
          (fun d' hd' => hir d' (List.mem_cons_of_mem d hd'))
          hw (fun d' hd' => hwid d' (List.mem_cons_of_mem d hd'))
      refine ⟨dels', h1, h2, h3, h4, ?_, h6, h6b, ?_, h8⟩
      · intro x hx
        obtain ⟨d', hd', hde⟩ := h5 x hx
        exact ⟨d', List.mem_cons_of_mem d hd', hde⟩
      · intro d' hd0 hemp g hg
        rcases List.mem_cons.mp hd0 with rfl | hd'
        · exact absurd hemp he
        · exact h7 d' hd' hemp g hg

/-- A deletion sweep over exclusively non-empty candidates is the
identity. -/
theorem deleteEmptyIn_id (l : List Folder) (t : GameState)
    (h : ∀ d ∈ l, isFolderEmpty t.folders t.items d = false) :
    deleteEmptyIn t l = t := by
  induction l with
  | nil => rfl
  | cons d rest ih =>
    rw [deleteEmptyIn, if_neg (by simp [h d (List.mem_cons_self d rest)])]
    exact ih (fun d' hd' => h d' (List.mem_cons_of_mem d hd'))

/-! ## Invariants of the folder repair pass -/

theorem isSubCand_props {n : String} {rid : Nat} {f : Folder}
    (h : isSubCand n rid f = true) :
    f.name = n ∧ f.ftype = "Item" ∧ f.parent = some rid := by
  simp only [isSubCand, Bool.and_eq_true, beq_iff_eq] at h
  exact ⟨h.1.1, h.1.2, h.2⟩

theorem isStrayCand_props {n : String} {f : Folder} (h : isStrayCand n f = true) :
    f.name = n ∧ f.ftype = "Item" ∧ f.parent = none := by
  simp only [isStrayCand, Bool.and_eq_true, beq_iff_eq] at h
  exact ⟨h.1.1, h.1.2, h.2⟩

theorem isRootCand_props {f : Folder} (h : isRootCand f = true) :
    f.name = CODEX_NAME ∧ f.ftype = "Item" ∧ f.parent = none := by
  simp only [isRootCand, Bool.and_eq_true, beq_iff_eq] at h
  exact ⟨h.1.1, h.1.2, h.2⟩

theorem filter_comm_my {α : Type} (p q : α → Bool) (l : List α) :
    (l.filter p).filter q = (l.filter q).filter p := by
  rw [filter_filter_my, filter_filter_my]
  exact List.filter_congr (fun a _ => Bool.and_comm _ _)

/-- A folder evolution (guarded deletions plus fresh folders) preserves any
folder filter that rejects the deleted ids and the new folders. -/
theorem filter_evolution {base t' : List Folder} {dels : List Nat} {newF : List Folder}
    (hev : t' = base.filter (fun g => !(idMem g.id dels)) ++ newF)
    (q : Folder → Bool)
    (hkeep : ∀ g ∈ base, q g = true → idMem g.id dels = false)
    (hnew : ∀ c ∈ newF, q c = false) :
    t'.filter q = base.filter q := by
  subst hev
  rw [List.filter_append, filter_filter_my]
  have h2 : newF.filter q = [] := by
    refine List.filter_eq_nil_iff.mpr ?_
    intro a ha
    simp [hnew a ha]
  rw [h2, List.append_nil]
  refine List.filter_congr ?_
  intro g hg
  cases hq : q g
  · simp
  · simp [hkeep g hg hq]

theorem nodup_append_singleton {l : List Nat} {x : Nat} (hN : l.Nodup) (hx : x ∉ l) :
    (l ++ [x]).Nodup := by
  induction l with
  | nil => simp
  | cons a tl ih =>
    rw [List.cons_append, List.nodup_cons]
    rw [List.nodup_cons] at hN
    refine ⟨?_, ih hN.2 (fun hc => hx (List.mem_cons_of_mem a hc))⟩
    intro hc
    rcases List.mem_append.mp hc with hc | hc
    · exact hN.1 hc
    · rcases List.mem_singleton.mp hc with rfl
      exact hx (List.mem_cons_self a tl)

/-- Specification of one step of the subfolder loop: the store stays
well-formed, the name gains its `SubPost`, all changes are confined to
`(name, parent = root)` folders, and emptiness is untouched away from the
root. -/
theorem subStep_spec (r : Folder) (t : GameState) (n : String)
    (hN : (t.folders.map (fun f => f.id)).Nodup)
    (hB : ∀ f ∈ t.folders, f.id < t.nextId ∧ ∀ p, f.parent = some p → p < t.nextId)
    (hrmem : r ∈ t.folders) (hrpar : r.parent = none) :
    (subStep r t n).items = t.items ∧
    (subStep r t n).actors = t.actors ∧
    t.nextId ≤ (subStep r t n).nextId ∧
    ((subStep r t n).folders.map (fun f => f.id)).Nodup ∧
    (∀ f ∈ (subStep r t n).folders, f.id < (subStep r t n).nextId ∧
      ∀ p, f.parent = some p → p < (subStep r t n).nextId) ∧
    (∃ dels newF,
      (subStep r t n).folders = t.folders.filter (fun g => !(idMem g.id dels)) ++ newF ∧
      (∀ x ∈ dels, ∃ d ∈ t.folders, d.id = x ∧ d.name = n ∧ d.parent = some r.id) ∧
      (∀ c ∈ newF, c.name = n ∧ c.ftype = "Item" ∧ c.parent = some r.id)) ∧
    (∀ f : Folder, f.id ≠ r.id →
      isFolderEmpty (subStep r t n).folders (subStep r t n).items f
        = isFolderEmpty t.folders t.items f) ∧
    (∀ f : Folder, isFolderEmpty t.folders t.items f = false →
      isFolderEmpty (subStep r t n).folders (subStep r t n).items f = false) ∧
    SubPost (subStep r t n) r n ∧
    (∀ f ∈ t.folders, isFolderEmpty t.folders t.items f = false →
      f ∈ (subStep r t n).folders) := by
  rcases hcand : t.folders.filter (isSubCand n r.id) with _ | ⟨m0, mrest⟩
  · -- no matching subfolder: create one
    have hred : subStep r t n =
        { t with
            folders := t.folders ++
              [{ id := t.nextId, name := n, ftype := "Item", parent := some r.id }],
            nextId := t.nextId + 1 } := by
      simp [subStep, hcand]
    rw [hred]
    refine ⟨rfl, rfl, Nat.le_succ _, ?_, ?_, ?_, ?_, ?_, ?_, ?_⟩
    · rw [List.map_append]
      exact nodup_append_singleton hN (by
        intro hc
        rcases List.mem_map.mp hc with ⟨f, hf, hfe⟩
        exact absurd hfe (Nat.ne_of_lt (hB f hf).1))
    · intro f hf
      rcases List.mem_append.mp hf with hf | hf
      · exact ⟨Nat.lt_succ_of_lt (hB f hf).1,
          fun p hp => Nat.lt_succ_of_lt ((hB f hf).2 p hp)⟩
      · rcases List.mem_singleton.mp hf with rfl
        exact ⟨Nat.lt_succ_self _, fun p hp => by
          cases hp
          exact Nat.lt_succ_of_lt (hB r hrmem).1⟩
    · refine ⟨[], [{ id := t.nextId, name := n, ftype := "Item", parent := some r.id }],
        ?_, by simp, ?_⟩
      · simp [idMem]
      · intro c hc
        rcases List.mem_singleton.mp hc with rfl
        exact ⟨rfl, rfl, rfl⟩
    · intro f hf
      exact empt_append_folder t.folders t.items _ f (by
        intro hc
        have : r.id = f.id := by simpa using hc
        exact hf this.symm)
    · intro f hf
      exact empt_false_append t.folders t.items _ f hf
    · constructor
      · rw [List.filter_append, hcand]
        simp [isSubCand]
      · rw [List.filter_append, hcand]
        simp [isSubCand]
    · intro f hf _
      exact List.mem_append.mpr (Or.inl hf)
  · have hclmem : ∀ x ∈ m0 :: mrest, x ∈ t.folders ∧ isSubCand n r.id x = true := by
      intro x hx
      have : x ∈ t.folders.filter (isSubCand n r.id) := hcand ▸ hx
      exact ⟨(List.mem_filter.mp this).1, (List.mem_filter.mp this).2⟩
    have hcN : ((m0 :: mrest).map (fun f => f.id)).Nodup := by
      rw [← hcand]
      exact nodup_ids_filter _ _ hN
    have hcN' : (mrest.map (fun f => f.id)).Nodup ∧ m0.id ∉ mrest.map (fun f => f.id) := by
      rw [List.map_cons, List.nodup_cons] at hcN
      exact ⟨hcN.2, hcN.1⟩
    have hidne : ∀ x ∈ m0 :: mrest, x.id ≠ r.id := by
      intro x hx hc
      have hxm := (hclmem x hx).1
      have hxr : x = r := folder_id_inj hN hxm hrmem hc
      have hp := (isSubCand_props (hclmem x hx).2).2.2
      rw [hxr, hrpar] at hp
      cases hp
    rcases mrest with _ | ⟨d1, drest⟩
    · -- exactly one match: nothing happens
      have hred : subStep r t n = t := by
        simp [subStep, hcand]
      rw [hred]
      refine ⟨rfl, rfl, le_refl _, hN, hB, ⟨[], [], by simp [idMem], by simp, by simp⟩,
        fun f _ => rfl, fun f hf => hf, ?_, fun f hf _ => hf⟩
      rw [SubPost, hcand]
      exact ⟨by simp, by simp⟩
    · -- duplicates: sweep the tail
      have hred : subStep r t n = deleteEmptyIn t (d1 :: drest) := by
        simp [subStep, hcand]
      have hpar' : ∀ d ∈ d1 :: drest, d.parent = some r.id := fun d hd =>
        (isSubCand_props (hclmem d (List.mem_cons_of_mem m0 hd)).2).2.2
      obtain ⟨dels, h1, h2, h3, h4, h5, h6, h6b, h7, h8⟩ :=
        deleteEmptyIn_par_spec (d1 :: drest) t r.id hN
          (fun d hd => (hclmem d (List.mem_cons_of_mem m0 hd)).1)
          hcN'.1 hpar'
          (fun d hd => hidne d (List.mem_cons_of_mem m0 hd))
          m0 (hclmem m0 (List.mem_cons_self m0 _)).1
          (isSubCand_props (hclmem m0 (List.mem_cons_self m0 _)).2).2.2
          (fun d hd => fun hc => hcN'.2 (hc ▸ List.mem_map.mpr ⟨d, hd, rfl⟩))
      have hdels : ∀ x ∈ dels, ∃ d ∈ t.folders, d.id = x ∧ d.name = n ∧
          d.parent = some r.id := by
        intro x hx
        obtain ⟨d, hd, hde⟩ := h5 x hx
        exact ⟨d, (hclmem d (List.mem_cons_of_mem m0 hd)).1, hde,
          (isSubCand_props (hclmem d (List.mem_cons_of_mem m0 hd)).2).1,
          hpar' d hd⟩
      have hm0keep : idMem m0.id dels = false := by
        cases hk : idMem m0.id dels
        · rfl
        · obtain ⟨d, hd, hde⟩ := h5 m0.id (idMem_iff_mem _ _ |>.mp hk)
          exact absurd (hde ▸ List.mem_map.mpr ⟨d, hd, rfl⟩) hcN'.2
      have hfilters : (deleteEmptyIn t (d1 :: drest)).folders.filter (isSubCand n r.id)
          = m0 :: (d1 :: drest).filter (fun g => !(idMem g.id dels)) := by
        rw [h1, filter_comm_my, hcand, List.filter_cons]
        simp [hm0keep]
      rw [hred]
      refine ⟨h2, h3, le_of_eq h4.symm, ?_, ?_, ⟨dels, [], by rw [h1, List.append_nil],
        hdels, by simp⟩, ?_, ?_, ?_, ?_⟩
      · rw [h1]
        exact nodup_ids_filter _ _ hN
      · intro f hf
        rw [h4]
        exact hB f (List.mem_filter.mp (h1 ▸ hf)).1
      · intro f hf
        rw [h2]
        exact h6 f hf
      · intro f hf
        rw [h2]
        exact h6b f hf
      · constructor
        · rw [hfilters]
          simp
        · rw [hfilters, h2]
          intro f hf
          simp only [List.drop_one, List.tail_cons] at hf
          have hfl : f ∈ d1 :: drest := (List.mem_filter.mp hf).1
          have hfk : idMem f.id dels = false := by
            have := (List.mem_filter.mp hf).2
            cases hk : idMem f.id dels
            · rfl
            · rw [hk] at this
              cases this
          have hfe : isFolderEmpty t.folders t.items f = false := by
            cases hfe : isFolderEmpty t.folders t.items f
            · rfl
            · exfalso
              have hmem : f ∈ (deleteEmptyIn t (d1 :: drest)).folders := by
                rw [h1]
                exact List.mem_filter.mpr
                  ⟨(hclmem f (List.mem_cons_of_mem m0 hfl)).1, by simp [hfk]⟩
              exact absurd rfl (h7 f hfl hfe f hmem)
          exact h6b f hfe
      · intro f hf hfe
        exact h8 f hf hfe

/-- A `SubPost` survives any transition that keeps the subfolder list and
emptiness away from the root. -/
theorem SubPost_transport {t t' : GameState} {r : Folder} {m : String}
    (hN : (t.folders.map (fun f => f.id)).Nodup)
    (hrmem : r ∈ t.folders) (hrpar : r.parent = none)
    (hfil : t'.folders.filter (isSubCand m r.id) = t.folders.filter (isSubCand m r.id))
    (hemp : ∀ f : Folder, f.id ≠ r.id →
      isFolderEmpty t'.folders t'.items f = isFolderEmpty t.folders t.items f)
    (hsp : SubPost t r m) : SubPost t' r m := by
  refine ⟨by rw [hfil]; exact hsp.1, ?_⟩
  intro f hf
  rw [hfil] at hf
  have hfmem := List.mem_of_mem_drop hf
  have hprops := isSubCand_props (List.mem_filter.mp hfmem).2
  have hfne : f.id ≠ r.id := by
    intro hc
    have hfr : f = r := folder_id_inj hN (List.mem_filter.mp hfmem).1 hrmem hc
    rw [hfr, hrpar] at hprops
    cases hprops.2.2
  rw [hemp f hfne]
  exact hsp.2 f hf

/-- A `RootPost` survives any transition that keeps the root-candidate list
and emptiness away from the root. -/
theorem RootPost_transport {t t' : GameState} {r : Folder}
    (hN : (t.folders.map (fun f => f.id)).Nodup)
    (hfil : t'.folders.filter isRootCand = t.folders.filter isRootCand)
    (hemp : ∀ f : Folder, f.id ≠ r.id →
      isFolderEmpty t'.folders t'.items f = isFolderEmpty t.folders t.items f)
    (hrp : RootPost t r) : RootPost t' r := by
  refine ⟨by rw [hfil]; exact hrp.1, ?_⟩
  intro f hf
  rw [hfil] at hf
  rcases hfl : t.folders.filter isRootCand with _ | ⟨r0, rest⟩
  · rw [hfl] at hf
    simp at hf
  · have hr0 : r0 = r := by
      have := hrp.1
      rw [hfl] at this
      simpa using this
    subst hr0
    have hNf : ((r0 :: rest).map (fun f => f.id)).Nodup := by
      rw [← hfl]
      exact nodup_ids_filter _ _ hN
    rw [hfl] at hf
    simp only [List.drop_one, List.tail_cons] at hf
    have hfne : f.id ≠ r0.id := by
      intro hc
      rw [List.map_cons, List.nodup_cons] at hNf
      exact hNf.1 (hc ▸ List.mem_map.mpr ⟨f, hf, rfl⟩)
    rw [hemp f hfne]
    refine hrp.2 f ?_
    rw [hfl]
    simpa using hf

/-- A `StrayPost` survives any transition that keeps the stray list and does
not change emptiness for root-level folders. -/
theorem StrayPost_transport {t t' : GameState} {m : String}
    (hfil : t'.folders.filter (isStrayCand m) = t.folders.filter (isStrayCand m))
    (hemp : ∀ f : Folder,
      isFolderEmpty t'.folders t'.items f = isFolderEmpty t.folders t.items f)
    (hsp : StrayPost t m) : StrayPost t' m := by
  intro f hf
  rw [hfil] at hf
  rw [hemp f]
  exact hsp f hf

/-- Specification of the subfolder loop over a duplicate-free name list. -/
theorem subfolderPhase_spec (r : Folder) (ns : List String) (t : GameState)
    (hN : (t.folders.map (fun f => f.id)).Nodup)
    (hB : ∀ f ∈ t.folders, f.id < t.nextId ∧ ∀ p, f.parent = some p → p < t.nextId)
    (hrmem : r ∈ t.folders) (hrpar : r.parent = none) (hnod : ns.Nodup) :
    (subfolderPhase r t ns).items = t.items ∧
    (subfolderPhase r t ns).actors = t.actors ∧
    t.nextId ≤ (subfolderPhase r t ns).nextId ∧
    ((subfolderPhase r t ns).folders.map (fun f => f.id)).Nodup ∧
    (∀ f ∈ (subfolderPhase r t ns).folders, f.id < (subfolderPhase r t ns).nextId ∧
      ∀ p, f.parent = some p → p < (subfolderPhase r t ns).nextId) ∧
    r ∈ (subfolderPhase r t ns).folders ∧
    (∀ q : Folder → Bool, (∀ g : Folder, q g = true → g.parent = none) →
      (subfolderPhase r t ns).folders.filter q = t.folders.filter q) ∧
    (∀ f : Folder, f.id ≠ r.id →
      isFolderEmpty (subfolderPhase r t ns).folders (subfolderPhase r t ns).items f
        = isFolderEmpty t.folders t.items f) ∧
    (∀ f : Folder, isFolderEmpty t.folders t.items f = false →
      isFolderEmpty (subfolderPhase r t ns).folders (subfolderPhase r t ns).items f
        = false) ∧
    (∀ m, m ∉ ns → SubPost t r m → SubPost (subfolderPhase r t ns) r m) ∧
    (∀ n ∈ ns, SubPost (subfolderPhase r t ns) r n) ∧
    (∀ f ∈ t.folders, isFolderEmpty t.folders t.items f = false →
      f ∈ (subfolderPhase r t ns).folders) := by
  induction ns generalizing t with
  | nil =>
    exact ⟨rfl, rfl, le_refl _, hN, hB, hrmem, fun q _ => rfl, fun f _ => rfl,
      fun f hf => hf, fun m _ h => h, by simp, fun f hf _ => hf⟩
  | cons n rest ih =>
    have hnod' : n ∉ rest ∧ rest.Nodup := by
      rw [List.nodup_cons] at hnod
      exact hnod
    obtain ⟨si, sa, snext, sN, sB, ⟨dels, newF, sev, sdels, snew⟩, semp, sfalse, ssub, sne⟩ :=
      subStep_spec r t n hN hB hrmem hrpar
    have hrkeep : idMem r.id dels = false := by
      cases hk : idMem r.id dels
      · rfl
      · obtain ⟨d, hd, hde, hdn, hdp⟩ := sdels r.id ((idMem_iff_mem _ _).mp hk)
        have hdr : d = r := folder_id_inj hN hd hrmem hde
        rw [hdr, hrpar] at hdp
        cases hdp
    have hrmem1 : r ∈ (subStep r t n).folders := by
      rw [sev]
      exact List.mem_append.mpr (Or.inl (List.mem_filter.mpr ⟨hrmem, by simp [hrkeep]⟩))
    obtain ⟨iA, iB, iC, iD, iE, iF, iG, iH, iI, iJ, iK, iL⟩ :=
      ih (subStep r t n) sN sB hrmem1 hnod'.2
    have hstepq : ∀ q : Folder → Bool, (∀ g : Folder, q g = true → g.parent = none) →
        (subStep r t n).folders.filter q = t.folders.filter q := by
      intro q hq
      refine filter_evolution sev q ?_ ?_
      · intro g hg hqg
        cases hk : idMem g.id dels
        · rfl
        · obtain ⟨d, hd, hde, hdn, hdp⟩ := sdels g.id ((idMem_iff_mem _ _).mp hk)
          have hdg : d = g := folder_id_inj hN hd hg hde
          rw [hdg] at hdp
          rw [hq g hqg] at hdp
          cases hdp
      · intro c hc
        cases hqc : q c
        · rfl
        · have := hq c hqc
          rw [(snew c hc).2.2] at this
          cases this
    have hstepsub : ∀ m, m ≠ n →
        (subStep r t n).folders.filter (isSubCand m r.id)
          = t.folders.filter (isSubCand m r.id) := by
      intro m hm
      refine filter_evolution sev _ ?_ ?_
      · intro g hg hqg
        cases hk : idMem g.id dels
        · rfl
        · obtain ⟨d, hd, hde, hdn, hdp⟩ := sdels g.id ((idMem_iff_mem _ _).mp hk)
          have hdg : d = g := folder_id_inj hN hd hg hde
          rw [hdg] at hdn
          rw [(isSubCand_props hqg).1] at hdn
          exact absurd hdn.symm hm.symm
      · intro c hc
        cases hqc : isSubCand m r.id c
        · rfl
        · have := (isSubCand_props hqc).1
          rw [(snew c hc).1] at this
          exact absurd this hm.symm
    simp only [subfolderPhase]
    refine ⟨iA.trans si, iB.trans sa, le_trans snext iC, iD, iE, iF, ?_, ?_, ?_, ?_, ?_, ?_⟩
    · intro q hq
      rw [iG q hq]
      exact hstepq q hq
    · intro f hf
      exact (iH f hf).trans (semp f hf)
    · intro f hf
      exact iI f (sfalse f hf)
    · intro m hm hsp
      have hm' : m ≠ n ∧ m ∉ rest := by
        rw [List.mem_cons, not_or] at hm
        exact hm
      refine iJ m hm'.2 ?_
      exact SubPost_transport hN hrmem hrpar (hstepsub m hm'.1) semp hsp
    · intro n' hn'
      rcases List.mem_cons.mp hn' with rfl | hn'
      · exact iJ n' hnod'.1 ssub
      · exact iK n' hn'
    · intro f hf hfe
      exact iL f (sne f hf hfe) (sfalse f hfe)

/-- Specification of one step of the stray sweep. -/
theorem strayStep_spec (t : GameState) (n : String)
    (hN : (t.folders.map (fun f => f.id)).Nodup) :
    (strayStep t n).items = t.items ∧
    (strayStep t n).actors = t.actors ∧
    (strayStep t n).nextId = t.nextId ∧
    ((strayStep t n).folders.map (fun f => f.id)).Nodup ∧
    (∃ dels : List Nat,
      (strayStep t n).folders = t.folders.filter (fun g => !(idMem g.id dels)) ∧
      (∀ x ∈ dels, ∃ d ∈ t.folders, d.id = x ∧ d.name = n ∧ d.parent = none)) ∧
    (∀ f : Folder, isFolderEmpty (strayStep t n).folders (strayStep t n).items f
      = isFolderEmpty t.folders t.items f) ∧
    StrayPost (strayStep t n) n ∧
    (∀ f ∈ t.folders, isFolderEmpty t.folders t.items f = false →
      f ∈ (strayStep t n).folders) := by
  have hstray : ∀ x ∈ t.folders.filter (isStrayCand n), x ∈ t.folders ∧
      isStrayCand n x = true :=
    fun x hx => ⟨(List.mem_filter.mp hx).1, (List.mem_filter.mp hx).2⟩
  obtain ⟨dels, h1, h2, h3, h4, h5, h6, h7, h8⟩ :=
    deleteEmptyIn_none_spec (t.folders.filter (isStrayCand n)) t hN
      (fun d hd => (hstray d hd).1)
      (nodup_ids_filter _ _ hN)
      (fun d hd => (isStrayCand_props (hstray d hd).2).2.2)
  have hred : strayStep t n = deleteEmptyIn t (t.folders.filter (isStrayCand n)) := rfl
  rw [hred]
  refine ⟨h2, h3, h4, ?_, ⟨dels, h1, ?_⟩, ?_, ?_, h8⟩
  · rw [h1]
    exact nodup_ids_filter _ _ hN
  · intro x hx
    obtain ⟨d, hd, hde⟩ := h5 x hx
    exact ⟨d, (hstray d hd).1, hde, (isStrayCand_props (hstray d hd).2).1,
      (isStrayCand_props (hstray d hd).2).2.2⟩
  · intro f
    rw [show (deleteEmptyIn t (t.folders.filter (isStrayCand n))).items = t.items from h2]
    exact h6 f
  · intro f hf
    have hfmem := List.mem_filter.mp hf
    have hfm : f ∈ t.folders := (List.mem_filter.mp (h1 ▸ hfmem.1)).1
    have hfe : isFolderEmpty t.folders t.items f = false := by
      cases hfe : isFolderEmpty t.folders t.items f
      · rfl
      · exfalso
        exact absurd rfl (h7 f (List.mem_filter.mpr ⟨hfm, hfmem.2⟩) hfe f hfmem.1)
    rw [show (deleteEmptyIn t (t.folders.filter (isStrayCand n))).items = t.items from h2,
      h6 f]
    exact hfe

/-- Specification of the stray sweep over a duplicate-free name list. -/
theorem strayPhase_spec (ns : List String) (t : GameState)
    (hN : (t.folders.map (fun f => f.id)).Nodup) (hnod : ns.Nodup) :
    (strayPhase t ns).items = t.items ∧
    (strayPhase t ns).actors = t.actors ∧
    (strayPhase t ns).nextId = t.nextId ∧
    ((strayPhase t ns).folders.map (fun f => f.id)).Nodup ∧
    (∀ q : Folder → Bool, (∀ g : Folder, q g = true → g.parent ≠ none) →
      (strayPhase t ns).folders.filter q = t.folders.filter q) ∧
    (∀ q : Folder → Bool, (∀ g : Folder, q g = true → g.name ∉ ns) →
      (strayPhase t ns).folders.filter q = t.folders.filter q) ∧
    (∀ f : Folder, isFolderEmpty (strayPhase t ns).folders (strayPhase t ns).items f
      = isFolderEmpty t.folders t.items f) ∧
    (∀ m, m ∉ ns → StrayPost t m → StrayPost (strayPhase t ns) m) ∧
    (∀ n ∈ ns, StrayPost (strayPhase t ns) n) ∧
    (∀ f ∈ t.folders, isFolderEmpty t.folders t.items f = false →
      f ∈ (strayPhase t ns).folders) := by
  induction ns generalizing t with
  | nil =>
    exact ⟨rfl, rfl, rfl, hN, fun q _ => rfl, fun q _ => rfl, fun f => rfl,
      fun m _ h => h, by simp, fun f hf _ => hf⟩
  | cons n rest ih =>
    have hnod' : n ∉ rest ∧ rest.Nodup := by
      rw [List.nodup_cons] at hnod
      exact hnod
    obtain ⟨si, sa, sn, sN, ⟨dels, sev, sdels⟩, semp, sstray, sne⟩ :=
      strayStep_spec t n hN
    have sev' : (strayStep t n).folders
        = t.folders.filter (fun g => !(idMem g.id dels)) ++ [] :=
      sev.trans (List.append_nil _).symm
    have hstepq : ∀ q : Folder → Bool, (∀ g : Folder, q g = true → g.parent ≠ none) →
        (strayStep t n).folders.filter q = t.folders.filter q := by
      intro q hq
      refine filter_evolution sev' q ?_ (by simp)
      intro g hg hqg
      cases hk : idMem g.id dels
      · rfl
      · obtain ⟨d, hd, hde, hdn, hdp⟩ := sdels g.id ((idMem_iff_mem _ _).mp hk)
        have hdg : d = g := folder_id_inj hN hd hg hde
        rw [hdg] at hdp
        exact absurd hdp (hq g hqg)
    have hstepname : ∀ q : Folder → Bool, (∀ g : Folder, q g = true → g.name ≠ n) →
        (strayStep t n).folders.filter q = t.folders.filter q := by
      intro q hq
      refine filter_evolution sev' q ?_ (by simp)
      intro g hg hqg
      cases hk : idMem g.id dels
      · rfl
      · obtain ⟨d, hd, hde, hdn, hdp⟩ := sdels g.id ((idMem_iff_mem _ _).mp hk)
        have hdg : d = g := folder_id_inj hN hd hg hde
        rw [hdg] at hdn
        exact absurd hdn (hq g hqg)
    obtain ⟨iA, iB, iC, iD, iE, iF, iG, iH, iI, iJ⟩ := ih (strayStep t n) sN hnod'.2
    simp only [strayPhase]
    refine ⟨iA.trans si, iB.trans sa, iC.trans sn, iD, ?_, ?_, ?_, ?_, ?_, ?_⟩
    · intro q hq
      rw [iE q hq]
      exact hstepq q hq
    · intro q hq
      have hq1 : ∀ g : Folder, q g = true → g.name ∉ rest := by
        intro g hg hc
        exact hq g hg (List.mem_cons_of_mem n hc)
      have hq2 : ∀ g : Folder, q g = true → g.name ≠ n := by
        intro g hg hc
        exact hq g hg (hc ▸ List.mem_cons_self n rest)
      rw [iF q hq1]
      exact hstepname q hq2
    · intro f
      exact (iG f).trans (semp f)
    · intro m hm hsp
      have hm' : m ≠ n ∧ m ∉ rest := by
        rw [List.mem_cons, not_or] at hm
        exact hm
      refine iH m hm'.2 ?_
      refine StrayPost_transport ?_ semp hsp
      refine hstepname (isStrayCand m) ?_
      intro g hg hc
      exact hm'.1 (((isStrayCand_props hg).1).symm.trans hc)
    · intro n' hn'
      rcases List.mem_cons.mp hn' with rfl | hn'
      · exact iH n' hnod'.1 sstray
      · exact iI n' hn'
    · intro f hf hfe
      refine iJ f (sne f hf hfe) ?_
      rw [semp f]
      exact hfe

/-- A subfolder step over a repaired name does nothing. -/
theorem subStep_id (r : Folder) (t : GameState) (n : String) (h : SubPost t r n) :
    subStep r t n = t := by
  rcases hcand : t.folders.filter (isSubCand n r.id) with _ | ⟨m0, mrest⟩
  · exact absurd hcand h.1
  · have hdel : deleteEmptyIn t mrest = t := by
      refine deleteEmptyIn_id mrest t ?_
      intro d hd
      refine h.2 d ?_
      rw [hcand]
      simpa using hd
    have hred : subStep r t n =
        if 1 < (m0 :: mrest).length then deleteEmptyIn t mrest else t := by
      simp [subStep, hcand]
    rw [hred]
    split
    · exact hdel
    · rfl

/-- A stray step over a repaired name does nothing. -/
theorem strayStep_id (t : GameState) (n : String) (h : StrayPost t n) :
    strayStep t n = t :=
  deleteEmptyIn_id _ t (fun d hd => h d hd)

theorem subfolderPhase_id (r : Folder) (ns : List String) (t : GameState)
    (h : ∀ n ∈ ns, SubPost t r n) : subfolderPhase r t ns = t := by
  induction ns with
  | nil => rfl
  | cons n rest ih =>
    rw [subfolderPhase, subStep_id r t n (h n (List.mem_cons_self n rest))]
    exact ih (fun m hm => h m (List.mem_cons_of_mem n hm))

theorem strayPhase_id (ns : List String) (t : GameState)
    (h : ∀ n ∈ ns, StrayPost t n) : strayPhase t ns = t := by
  induction ns with
  | nil => rfl
  | cons n rest ih =>
    rw [strayPhase, strayStep_id t n (h n (List.mem_cons_self n rest))]
    exact ih (fun m hm => h m (List.mem_cons_of_mem n hm))

/-- A settled store is a fixed point of the repair pass. -/
theorem settled_fixed (t : GameState) (r : Folder) (h : Settled t r) :
    ensureFolderHierarchy t = (t, r) := by
  obtain ⟨⟨hhead, htail⟩, hsub, hstray⟩ := h
  rcases hfl : t.folders.filter isRootCand with _ | ⟨r0, rest⟩
  · rw [hfl] at hhead
    cases hhead
  · have hr0 : r0 = r := by
      rw [hfl] at hhead
      simpa using hhead
    subst hr0
    have hdel : deleteEmptyIn t rest = t := by
      refine deleteEmptyIn_id rest t ?_
      intro d hd
      refine htail d ?_
      rw [hfl]
      simpa using hd
    simp only [ensureFolderHierarchy, hfl]
    rw [hdel, subfolderPhase_id r0 SPELL_LEVEL_FOLDERS t hsub,
      strayPhase_id SPELL_LEVEL_FOLDERS t hstray]

/-- The settling core: phases 2 and 3 establish `Settled` on any store whose
root phase has been resolved, and never delete a non-empty folder. -/
theorem phases_settled (t1 : GameState) (r : Folder)
    (hN1 : (t1.folders.map (fun f => f.id)).Nodup)
    (hB1 : ∀ f ∈ t1.folders, f.id < t1.nextId ∧ ∀ p, f.parent = some p → p < t1.nextId)
    (hrmem : r ∈ t1.folders) (hrpar : r.parent = none)
    (hroot : RootPost t1 r) :
    Settled (strayPhase (subfolderPhase r t1 SPELL_LEVEL_FOLDERS) SPELL_LEVEL_FOLDERS) r ∧
    ∀ f ∈ t1.folders, isFolderEmpty t1.folders t1.items f = false →
      f ∈ (strayPhase (subfolderPhase r t1 SPELL_LEVEL_FOLDERS) SPELL_LEVEL_FOLDERS).folders ∧
      isFolderEmpty
        (strayPhase (subfolderPhase r t1 SPELL_LEVEL_FOLDERS) SPELL_LEVEL_FOLDERS).folders
        (strayPhase (subfolderPhase r t1 SPELL_LEVEL_FOLDERS) SPELL_LEVEL_FOLDERS).items
        f = false := by
  have hnodn : SPELL_LEVEL_FOLDERS.Nodup := by decide
  obtain ⟨pA, pB, pC, pD, pE, pF, pG, pH, pI, pJ, pK, pL⟩ :=
    subfolderPhase_spec r SPELL_LEVEL_FOLDERS t1 hN1 hB1 hrmem hrpar hnodn
  obtain ⟨qA, qB, qC, qD, qE, qF, qG, qH, qI, qJ⟩ :=
    strayPhase_spec SPELL_LEVEL_FOLDERS (subfolderPhase r t1 SPELL_LEVEL_FOLDERS) pD hnodn
  have hroot2 : RootPost (subfolderPhase r t1 SPELL_LEVEL_FOLDERS) r :=
    RootPost_transport hN1
      (pG isRootCand (fun g hg => (isRootCand_props hg).2.2)) pH hroot
  have hroot3 :
      RootPost (strayPhase (subfolderPhase r t1 SPELL_LEVEL_FOLDERS) SPELL_LEVEL_FOLDERS) r :=
    RootPost_transport pD
      (qF isRootCand (fun g hg => by
        rw [(isRootCand_props hg).1]
        decide))
      (fun f _ => qG f) hroot2
  refine ⟨⟨hroot3, ?_, qI⟩, ?_⟩
  · intro n hn
    refine SubPost_transport pD pF hrpar ?_ (fun f _ => qG f) (pK n hn)
    refine qE (isSubCand n r.id) ?_
    intro g hg
    rw [(isSubCand_props hg).2.2]
    simp
  · intro f hf hfe
    have h2m := pL f hf hfe
    have h2e := pI f hfe
    refine ⟨qJ f h2m h2e, ?_⟩
    rw [qG f]
    exact h2e

set_option maxHeartbeats 4000000 in
/-- The repair pass settles any well-formed store and never deletes a
non-empty folder. -/
theorem run_settled (s : GameState)
    (hN : (s.folders.map (fun f => f.id)).Nodup)
    (hB : ∀ f ∈ s.folders, f.id < s.nextId ∧ ∀ p, f.parent = some p → p < s.nextId) :
    Settled (ensureFolderHierarchy s).1 (ensureFolderHierarchy s).2 ∧
    ∀ f ∈ s.folders, isFolderEmpty s.folders s.items f = false →
      f ∈ (ensureFolderHierarchy s).1.folders ∧
      isFolderEmpty (ensureFolderHierarchy s).1.folders
        (ensureFolderHierarchy s).1.items f = false := by
  rcases hfl : s.folders.filter isRootCand with _ | ⟨r0, rest⟩
  · -- no root candidate: one is created, then phases 2 and 3 run
    have hrcand :
        isRootCand { id := s.nextId, name := CODEX_NAME, ftype := "Item", parent := none }
          = true := by
      simp [isRootCand]
    have hN1 :
        (((s.folders ++ [({ id := s.nextId, name := CODEX_NAME, ftype := "Item", parent := none } : Folder)]).map (fun f => f.id))).Nodup := by
      rw [List.map_append]
      exact nodup_append_singleton hN (by
        intro hc
        rcases List.mem_map.mp hc with ⟨f, hf, hfe⟩
        exact absurd hfe (Nat.ne_of_lt (hB f hf).1))
    have hfil1 :
        (s.folders ++ [({ id := s.nextId, name := CODEX_NAME, ftype := "Item", parent := none } : Folder)]).filter isRootCand
          = [({ id := s.nextId, name := CODEX_NAME, ftype := "Item", parent := none } : Folder)] := by
      rw [List.filter_append, hfl]
      simp [hrcand]
    obtain ⟨hset, hne⟩ := phases_settled
      { s with
          folders := s.folders ++
            [{ id := s.nextId, name := CODEX_NAME, ftype := "Item", parent := none }],
          nextId := s.nextId + 1 }
      { id := s.nextId, name := CODEX_NAME, ftype := "Item", parent := none }
      hN1
      (by
        intro f hf
        rcases List.mem_append.mp hf with hf | hf
        · exact ⟨Nat.lt_succ_of_lt (hB f hf).1,
            fun p hp => Nat.lt_succ_of_lt ((hB f hf).2 p hp)⟩
        · rcases List.mem_singleton.mp hf with rfl
          exact ⟨Nat.lt_succ_self _, fun p hp => by cases hp⟩)
      (List.mem_append.mpr (Or.inr (List.mem_singleton.mpr rfl)))
      rfl
      ⟨by rw [hfil1]; rfl, by rw [hfil1]; simp⟩
    simp only [ensureFolderHierarchy, hfl]
    refine ⟨hset, ?_⟩
    intro f hf hfe
    exact hne f (List.mem_append.mpr (Or.inl hf))
      (empt_false_append s.folders s.items _ f hfe)
  · -- existing root candidates: empty duplicates are removed
    have hrest : ∀ x ∈ rest, x ∈ s.folders ∧ isRootCand x = true := by
      intro x hx
      have hxm : x ∈ s.folders.filter isRootCand := by
        rw [hfl]
        exact List.mem_cons_of_mem r0 hx
      exact ⟨(List.mem_filter.mp hxm).1, (List.mem_filter.mp hxm).2⟩
    have hr0 : r0 ∈ s.folders ∧ isRootCand r0 = true := by
      have hxm : r0 ∈ s.folders.filter isRootCand := by
        rw [hfl]
        exact List.mem_cons_self _ _
      exact ⟨(List.mem_filter.mp hxm).1, (List.mem_filter.mp hxm).2⟩
    have hfN : ((r0 :: rest).map (fun f => f.id)).Nodup := by
      rw [← hfl]
      exact nodup_ids_filter _ _ hN
    have hfN' : (rest.map (fun f => f.id)).Nodup ∧ r0.id ∉ rest.map (fun f => f.id) := by
      rw [List.map_cons, List.nodup_cons] at hfN
      exact ⟨hfN.2, hfN.1⟩
    obtain ⟨dels, d1, d2, d3, d4, d5, d6, d7, d8⟩ :=
      deleteEmptyIn_none_spec rest s hN (fun d hd => (hrest d hd).1) hfN'.1
        (fun d hd => (isRootCand_props (hrest d hd).2).2.2)
    have hr0keep : idMem r0.id dels = false := by
      cases hk : idMem r0.id dels
      · rfl
      · obtain ⟨d, hd, hde⟩ := d5 r0.id ((idMem_iff_mem _ _).mp hk)
        exact absurd (hde ▸ List.mem_map.mpr ⟨d, hd, rfl⟩) hfN'.2
    have hrmem1 : r0 ∈ (deleteEmptyIn s rest).folders := by
      rw [d1]
      exact List.mem_filter.mpr ⟨hr0.1, by simp [hr0keep]⟩
    have hrootfil1 : (deleteEmptyIn s rest).folders.filter isRootCand
        = r0 :: rest.filter (fun g => !(idMem g.id dels)) := by
      rw [d1, filter_comm_my, hfl, List.filter_cons]
      simp [hr0keep]
    have hroot1 : RootPost (deleteEmptyIn s rest) r0 := by
      constructor
      · rw [hrootfil1]
        rfl
      · rw [hrootfil1]
        intro f hf
        simp only [List.drop_one, List.tail_cons] at hf
        have hfr : f ∈ rest := (List.mem_filter.mp hf).1
        have hfk := (List.mem_filter.mp hf).2
        have hfe : isFolderEmpty s.folders s.items f = false := by
          cases hfe : isFolderEmpty s.folders s.items f
          · rfl
          · exfalso
            have hmem : f ∈ (deleteEmptyIn s rest).folders := by
              rw [d1]
              exact List.mem_filter.mpr ⟨(hrest f hfr).1, hfk⟩
            exact absurd rfl (d7 f hfr hfe f hmem)
        rw [show (deleteEmptyIn s rest).items = s.items from d2, d6 f]
        exact hfe
    obtain ⟨hset, hne⟩ := phases_settled (deleteEmptyIn s rest) r0
      (by rw [d1]; exact nodup_ids_filter _ _ hN)
      (by
        intro f hf
        rw [d4]
        rw [d1] at hf
        exact hB f (List.mem_filter.mp hf).1)
      hrmem1
      (isRootCand_props hr0.2).2.2
      hroot1
    simp only [ensureFolderHierarchy, hfl]
    refine ⟨hset, ?_⟩
    intro f hf hfe
    refine hne f (d8 f hf hfe) ?_
    rw [show (deleteEmptyIn s rest).items = s.items from d2, d6 f]
    exact hfe

/-- Claim C7: on a well-formed store (distinct folder ids, fresh-id counter
above every id in use) the repair pass is idempotent — a second run returns
the first run's state unchanged — and conservative: every folder that is
non-empty going in survives the run, still non-empty (so only folders that
were empty at deletion time are ever deleted). -/
theorem ensureFolderHierarchy_idempotent (s : GameState)
    (hN : (s.folders.map (fun f => f.id)).Nodup)
    (hB : ∀ f ∈ s.folders, f.id < s.nextId ∧ ∀ p, f.parent = some p → p < s.nextId) :
    (ensureFolderHierarchy (ensureFolderHierarchy s).1).1 = (ensureFolderHierarchy s).1 ∧
    ∀ f ∈ s.folders, isFolderEmpty s.folders s.items f = false →
      f ∈ (ensureFolderHierarchy s).1.folders ∧
      isFolderEmpty (ensureFolderHierarchy s).1.folders
        (ensureFolderHierarchy s).1.items f = false := by
  obtain ⟨hset, hne⟩ := run_settled s hN hB
  refine ⟨?_, hne⟩
  rw [settled_fixed (ensureFolderHierarchy s).1 (ensureFolderHierarchy s).2 hset]

/-- Witness for C7: the double run equals the single run, and the non-empty
stray folder survives. -/
theorem ensureFolderHierarchy_idempotent_witness :
    (ensureFolderHierarchy (ensureFolderHierarchy wfState).1).1
      = (ensureFolderHierarchy wfState).1 ∧
    wfFolder ∈ (ensureFolderHierarchy wfState).1.folders := by
  have h := ensureFolderHierarchy_idempotent wfState (by decide) (by decide)
  exact ⟨h.1, (h.2 wfFolder (by decide) (by decide)).1⟩

end InnovationsCodex
